import Mathlib

/-!
Verification development for the SharePoint RAG importer.

This file contains a shallow embedding of the repository's core algorithms:

* the token-aware recursive chunker (app/processing/chunker.py, class TextChunker);
* the per-file ingestion pipeline and job bookkeeping of the background import
  task (app/api/import_routes.py, run_import_job) together with the storage
  operations it drives (app/storage/vector_store.py: VectorStore and
  MetadataStore);
* the paginated folder listing with its retry wrapper
  (app/sharepoint/client.py, SharePointClient.list_folder_contents).

Texts are embedded as lists of characters (Python str values), and the
embedding model's tokenizer (tiktoken, an external collaborator) is a
parameter: a pair of functions encode and decode.  Fallible code (Python
code that can raise) is embedded with Option: a none result models an
escaping exception.  Recursions that Python expresses with unbounded loops
are given an explicit fuel argument that provably suffices, so that every
definition is executable and theorems can be checked on concrete inputs.
-/

namespace RagImporter

/-- A Python string, embedded as its list of characters. -/
abbrev Str := List Char

/-- The embedding model's tokenizer (tiktoken cl100k_base in the source),
treated as an external collaborator: an encoding of strings into token ids
and a decoding back.  chunker.py only uses these two operations. -/
structure Tokenizer where
  encode : Str → List Nat
  decode : List Nat → Str

/-- A concrete tokenizer instance used for counterexamples and witnesses:
every character is one token.  The chunker's claims are about its algorithm,
which is parametric in the tokenizer. -/
def charTok : Tokenizer where
  encode s := s.map Char.toNat
  decode l := l.map Char.ofNat

/-- TextChunker.count_tokens: length of the token encoding. -/
def countTokens (tok : Tokenizer) (s : Str) : Nat :=
  (tok.encode s).length

/-- Python whitespace characters, as stripped by str.strip(). -/
def isPyWs (c : Char) : Bool :=
  c = ' ' || c = '\t' || c = '\n' || c = '\r' || c = '\x0b' || c = '\x0c'

/-- Python str.strip(): drop whitespace from both ends. -/
def pyStrip (s : Str) : Str :=
  ((s.dropWhile isPyWs).reverse.dropWhile isPyWs).reverse

/-- First normalization pass of TextChunker._clean_text: the two regex
substitutions replacing a CRLF pair and then every remaining CR by LF. -/
def normalizeCR : Str → Str
  | [] => []
  | '\r' :: '\n' :: rest => '\n' :: normalizeCR rest
  | '\r' :: rest => '\n' :: normalizeCR rest
  | c :: rest => c :: normalizeCR rest

/-- Second pass of _clean_text: the regex collapsing every run of spaces and
tabs into a single space.  The boolean records whether we are inside a run. -/
def collapseSpacesGo (inRun : Bool) : Str → Str
  | [] => []
  | c :: rest =>
    if c = ' ' || c = '\t' then
      if inRun then collapseSpacesGo true rest
      else ' ' :: collapseSpacesGo true rest
    else c :: collapseSpacesGo false rest

def collapseSpaces (s : Str) : Str := collapseSpacesGo false s

/-- Third pass of _clean_text: the regex capping runs of three or more
newlines at exactly two.  The counter is the number of newlines already kept
in the current run (saturating at two). -/
def collapseNewlinesGo (run : Nat) : Str → Str
  | [] => []
  | c :: rest =>
    if c = '\n' then
      if run < 2 then '\n' :: collapseNewlinesGo (run + 1) rest
      else collapseNewlinesGo run rest
    else c :: collapseNewlinesGo 0 rest

def collapseNewlines (s : Str) : Str := collapseNewlinesGo 0 s

/-- TextChunker._clean_text: normalize line endings, collapse space runs,
cap blank lines, and strip the ends. -/
def cleanText (s : Str) : Str :=
  pyStrip (collapseNewlines (collapseSpaces (normalizeCR s)))

/-- Parse the body of a page marker after its opening bracket: the literal
characters of the word Page, a space, one or more digits and a closing
bracket.  Returns the page number, the number of characters consumed after
the opening bracket, and the remaining characters. -/
def matchPageCore (cs : Str) : Option (Nat × Nat × Str) :=
  match cs with
  | 'P' :: 'a' :: 'g' :: 'e' :: ' ' :: rest =>
    let digits := rest.takeWhile Char.isDigit
    let after := rest.dropWhile Char.isDigit
    if digits.isEmpty then none
    else match after with
      | ']' :: r => some (digits.foldl (fun acc c => 10 * acc + (c.toNat - '0'.toNat)) 0,
                          5 + digits.length + 1, r)
      | _ => none
  | _ => none

/-- TextChunker._extract_page_markers: positions and numbers of every match
of the page-marker pattern, scanning left to right (re.finditer).  The fuel
is an upper bound on the characters still to scan; every step consumes at
least one character, so fuel equal to the length suffices. -/
def extractPageMarkersGo (fuel : Nat) (cs : Str) (pos : Nat) : List (Nat × Nat) :=
  match fuel with
  | 0 => []
  | fuel + 1 =>
    match cs with
    | [] => []
    | '[' :: rest =>
      match matchPageCore rest with
      | some (n, consumed, r) => (pos, n) :: extractPageMarkersGo fuel r (pos + 1 + consumed)
      | none => extractPageMarkersGo fuel rest (pos + 1)
    | _ :: rest => extractPageMarkersGo fuel rest (pos + 1)

def extractPageMarkers (cs : Str) : List (Nat × Nat) :=
  extractPageMarkersGo cs.length cs 0

/-- TextChunker._remove_page_markers: delete every page marker together with
an optionally following newline. -/
def removeMarkersGo (fuel : Nat) (cs : Str) : Str :=
  match fuel with
  | 0 => cs
  | fuel + 1 =>
    match cs with
    | [] => []
    | '[' :: rest =>
      match matchPageCore rest with
      | some (_, _, r) =>
        match r with
        | '\n' :: r2 => removeMarkersGo fuel r2
        | _ => removeMarkersGo fuel r
      | none => '[' :: removeMarkersGo fuel rest
    | c :: rest => c :: removeMarkersGo fuel rest

def removeMarkers (cs : Str) : Str :=
  removeMarkersGo cs.length cs

/-- TextChunker._find_page_number: the page of the last marker at or before
the offset.  The marker list is produced in ascending position order, so the
scan stops at the first later position, as the Python loop does after
sorting. -/
def findPageNumber (off : Nat) : List (Nat × Nat) → Option Nat → Option Nat
  | [], cur => cur
  | (p, pg) :: rest, cur =>
    if p ≤ off then findPageNumber off rest (some pg) else cur

/-- Python str.istitle(): there is at least one cased character, every upper
case character follows an uncased one and every lower case character follows
a cased one. -/
def pyIstitleGo (prevCased seenCased : Bool) : Str → Bool
  | [] => seenCased
  | c :: rest =>
    if c.isUpper then
      if prevCased then false else pyIstitleGo true true rest
    else if c.isLower then
      if prevCased then pyIstitleGo true true rest else false
    else pyIstitleGo false seenCased rest

def pyIstitle (s : Str) : Bool := pyIstitleGo false false s

/-- TextChunker._extract_section_title: a markdown heading at the start of
the chunk, or a short title-cased first line.  (The regex backtracking edge
case of a heading marker followed only by whitespace at the end of the text
is not exercised by any theorem below.) -/
def extractSectionTitle (s : Str) : Option Str :=
  let hashes := s.takeWhile (· = '#')
  let afterHashes := s.dropWhile (· = '#')
  let ws := afterHashes.takeWhile (fun c => isPyWs c)
  let captured := (afterHashes.dropWhile (fun c => isPyWs c)).takeWhile (· ≠ '\n')
  if !hashes.isEmpty && !ws.isEmpty && !captured.isEmpty then
    some (pyStrip captured)
  else
    let firstLine := pyStrip (s.takeWhile (· ≠ '\n'))
    if firstLine.length < 100 && pyIstitle firstLine then some firstLine else none

/-- Python str.split(sep) for a separator, keeping empty pieces and cutting
at every non-overlapping occurrence left to right.  The fuel is an upper
bound on the remaining characters; every recursive step consumes at least
one character when the separator is nonempty. -/
def pySplitGo (sep : Str) (fuel : Nat) (acc : Str) (cs : Str) : List Str :=
  match fuel with
  | 0 => [acc.reverse ++ cs]
  | fuel + 1 =>
    match cs with
    | [] => [acc.reverse]
    | c :: rest =>
      if sep.isPrefixOf (c :: rest) then
        acc.reverse :: pySplitGo sep fuel [] ((c :: rest).drop sep.length)
      else
        pySplitGo sep fuel (c :: acc) rest

def pySplit (cs sep : Str) : List Str :=
  if sep.isEmpty then [cs] else pySplitGo sep cs.length [] cs

/-- Python range(0, stop, step) with an integer step, as used by
TextChunker._force_split.  A zero step raises ValueError (none); a negative
step starting from zero yields no indices. -/
def pyRange (stop : Nat) (step : Int) : Option (List Nat) :=
  if step = 0 then none
  else if step < 0 then some []
  else some ((List.range ((stop + step.toNat - 1) / step.toNat)).map (· * step.toNat))

/-- Configuration of TextChunker.__init__: chunk_size, chunk_overlap and
min_chunk_size, in tokens. -/
structure ChunkerConfig where
  chunkSize : Nat
  chunkOverlap : Nat
  minChunkSize : Nat
  deriving DecidableEq, Repr

/-- TextChunker._force_split: cut the token sequence with a stride of
chunk_size minus chunk_overlap, decode each window of chunk_size tokens, and
keep the stripped text of every window that is not whitespace only.  The
none result models the ValueError raised by range on a zero step. -/
def forceSplit (cfg : ChunkerConfig) (tok : Tokenizer) (text : Str) : Option (List Str) :=
  (pyRange (tok.encode text).length ((cfg.chunkSize : Int) - (cfg.chunkOverlap : Int))).map
    (fun idxs =>
      idxs.foldl
        (fun chunks i =>
          if !(pyStrip (tok.decode (((tok.encode text).drop i).take cfg.chunkSize))).isEmpty then
            chunks ++ [pyStrip (tok.decode (((tok.encode text).drop i).take cfg.chunkSize))]
          else chunks)
        [])

/-- Body of the loop of TextChunker._add_overlap: each chunk after the first
is prefixed with the stripped decoding of the last chunk_overlap tokens of
the preceding pre-overlap chunk followed by one space, but only when that
preceding chunk has strictly more than chunk_overlap tokens. -/
def addOverlapGo (cfg : ChunkerConfig) (tok : Tokenizer) : Str → List Str → List Str
  | _, [] => []
  | prev, c :: cs =>
    (let pt := tok.encode prev
     if cfg.chunkOverlap < pt.length then
       pyStrip (tok.decode (pt.drop (pt.length - cfg.chunkOverlap))) ++ ' ' :: c
     else c) :: addOverlapGo cfg tok c cs

/-- TextChunker._add_overlap. -/
def addOverlap (cfg : ChunkerConfig) (tok : Tokenizer) (chunks : List Str) : List Str :=
  if chunks.length ≤ 1 || cfg.chunkOverlap = 0 then chunks
  else
    match chunks with
    | [] => []
    | c :: rest => c :: addOverlapGo cfg tok c rest

/-- The greedy reassembly loop of TextChunker._split_recursive: walk the
pieces of the split, merging each piece into the current chunk while the
merged text still fits in chunk_size tokens; when it does not fit, flush the
current chunk as a group and either emit the piece as its own (oversized)
group or start a new current chunk with it.  Groups are emitted in the order
the Python loop appends or recurses on them. -/
def buildGroups (cfg : ChunkerConfig) (tok : Tokenizer) (sep : Str) :
    List Str → Str → List Str
  | [], current => if current.isEmpty then [] else [current]
  | s :: ss, current =>
    let test := if current.isEmpty then s else current ++ sep ++ s
    if countTokens tok test ≤ cfg.chunkSize then
      buildGroups cfg tok sep ss test
    else
      (if current.isEmpty then [] else [current]) ++
        (if cfg.chunkSize < countTokens tok s then
          s :: buildGroups cfg tok sep ss []
        else
          buildGroups cfg tok sep ss s)

/-- Emission step shared by every append site of _split_recursive: a group
within chunk_size is appended stripped; a group above it is split further
with the remaining separators (the recursion the loop performs in place). -/
def processGroups (cfg : ChunkerConfig) (tok : Tokenizer)
    (recur : Str → Option (List Str)) : List Str → Option (List Str)
  | [] => some []
  | g :: gs =>
    match (if cfg.chunkSize < countTokens tok g then recur g else some [pyStrip g]),
          processGroups cfg tok recur gs with
    | some a, some b => some (a ++ b)
    | _, _ => none

/-- TextChunker._split_recursive.  The fuel is an upper bound on the depth of
the separator recursion: every recursive call passes the tail of the
separator list, so any fuel above the list length is never exhausted (the
zero-fuel branch is unreachable from recursiveSplit; see
splitRecAux_isSome). -/
def splitRecAux (cfg : ChunkerConfig) (tok : Tokenizer) :
    Nat → List Str → Str → Option (List Str)
  | 0, _, _ => none
  | _ + 1, [], text =>
    if countTokens tok text ≤ cfg.chunkSize then
      some (if (pyStrip text).isEmpty then [] else [pyStrip text])
    else forceSplit cfg tok text
  | fuel + 1, sep :: rest, text =>
    if countTokens tok text ≤ cfg.chunkSize then
      some (if (pyStrip text).isEmpty then [] else [pyStrip text])
    else if sep.isEmpty then forceSplit cfg tok text
    else
      (processGroups cfg tok (splitRecAux cfg tok fuel rest)
          (buildGroups cfg tok sep (pySplit text sep) [])).map
        (addOverlap cfg tok)

/-- The separator priority list of TextChunker._recursive_split. -/
def separators : List Str :=
  [['\n', '\n'], ['\n'], ['.', ' '], ['!', ' '], ['?', ' '], [';', ' '],
   [',', ' '], [' '], []]

/-- TextChunker._recursive_split. -/
def recursiveSplit (cfg : ChunkerConfig) (tok : Tokenizer) (text : Str) :
    Option (List Str) :=
  splitRecAux cfg tok (separators.length + 1) separators text

/-- A chunk record (dataclass Chunk of chunker.py).  The metadata dictionary
is passed through chunk_text unchanged and carries no algorithmic content,
so it is omitted from the embedding. -/
structure Chunk where
  content : Str
  index : Nat
  startChar : Nat
  endChar : Nat
  tokenCount : Nat
  pageNumber : Option Nat
  sectionTitle : Option Str
  deriving DecidableEq, Repr

/-- The chunk-object construction loop of TextChunker.chunk_text: walk the
raw split results with their position idx among n raw chunks, skip a chunk
below min_chunk_size unless it is the last raw chunk, and number the kept
chunks consecutively from the current result length.  The character offset
advances only over kept chunks, as in the source. -/
def buildChunks (cfg : ChunkerConfig) (tok : Tokenizer)
    (pageMap : List (Nat × Nat)) (n : Nat) :
    List Str → Nat → Nat → Nat → List Chunk
  | [], _, _, _ => []
  | c :: cs, idx, charOff, resLen =>
    let tc := countTokens tok c
    if tc < cfg.minChunkSize && idx < n - 1 then
      buildChunks cfg tok pageMap n cs (idx + 1) charOff resLen
    else
      { content := c
        index := resLen
        startChar := charOff
        endChar := charOff + c.length
        tokenCount := tc
        pageNumber := findPageNumber charOff pageMap none
        sectionTitle := extractSectionTitle c } ::
        buildChunks cfg tok pageMap n cs (idx + 1) (charOff + c.length) (resLen + 1)

/-- TextChunker.chunk_text.  The none result models an exception escaping
the chunker (the ValueError of _force_split on a zero range step). -/
def chunkText (cfg : ChunkerConfig) (tok : Tokenizer) (text : Str) :
    Option (List Chunk) :=
  if (pyStrip text).isEmpty then some []
  else
    (recursiveSplit cfg tok (removeMarkers (cleanText text))).map
      (fun raw =>
        buildChunks cfg tok (extractPageMarkers (cleanText text)) raw.length raw 0 0 0)

/-! ### Basic lemmas about the chunker embedding -/

lemma countTokens_charTok (s : Str) : countTokens charTok s = s.length := by
  simp [countTokens, charTok]

lemma pyStrip_length_le (s : Str) : (pyStrip s).length ≤ s.length := by
  unfold pyStrip
  calc ((s.dropWhile isPyWs).reverse.dropWhile isPyWs).reverse.length
      = ((s.dropWhile isPyWs).reverse.dropWhile isPyWs).length := List.length_reverse _
    _ ≤ (s.dropWhile isPyWs).reverse.length := (List.dropWhile_sublist _).length_le
    _ = (s.dropWhile isPyWs).length := List.length_reverse _
    _ ≤ s.length := (List.dropWhile_sublist _).length_le

lemma addOverlap_of_overlap_zero (cfg : ChunkerConfig) (tok : Tokenizer)
    (h : cfg.chunkOverlap = 0) (chunks : List Str) :
    addOverlap cfg tok chunks = chunks := by
  simp [addOverlap, h]

/-- Members of the filtered append fold used by forceSplit come from the
initial accumulator or are values of the window function at some index. -/
lemma mem_foldl_filterAppend (f : Nat → Str) :
    ∀ (idxs : List Nat) (acc : List Str) (c : Str),
      c ∈ idxs.foldl
        (fun chunks i => if !(f i).isEmpty then chunks ++ [f i] else chunks) acc →
      c ∈ acc ∨ ∃ i, c = f i := by
  intro idxs
  induction idxs with
  | nil => intro acc c h; exact Or.inl h
  | cons i is ih =>
    intro acc c h
    simp only [List.foldl_cons] at h
    rcases ih _ c h with h1 | h2
    · by_cases hi : (f i).isEmpty
      · simp [hi] at h1; exact Or.inl h1
      · simp only [hi, Bool.not_false, if_true] at h1
        rcases List.mem_append.mp h1 with h3 | h3
        · exact Or.inl h3
        · exact Or.inr ⟨i, by simpa using h3⟩
    · exact Or.inr h2

lemma forceSplit_charTok_bound (cfg : ChunkerConfig) (text : Str) (cs : List Str)
    (h : forceSplit cfg charTok text = some cs) :
    ∀ c ∈ cs, c.length ≤ cfg.chunkSize := by
  intro c hc
  unfold forceSplit at h
  cases hr : pyRange (charTok.encode text).length
      ((cfg.chunkSize : Int) - (cfg.chunkOverlap : Int)) with
  | none => rw [hr] at h; simp at h
  | some idxs =>
    rw [hr] at h
    simp only [Option.map_some', Option.some.injEq] at h
    subst h
    rcases mem_foldl_filterAppend
        (fun i => pyStrip (charTok.decode (((charTok.encode text).drop i).take cfg.chunkSize)))
        idxs [] c hc with h1 | ⟨i, rfl⟩
    · simp at h1
    · calc (pyStrip (charTok.decode (((charTok.encode text).drop i).take cfg.chunkSize))).length
          ≤ (charTok.decode (((charTok.encode text).drop i).take cfg.chunkSize)).length :=
            pyStrip_length_le _
        _ = (((charTok.encode text).drop i).take cfg.chunkSize).length := by
            simp [charTok]
        _ ≤ cfg.chunkSize := List.length_take_le _ _

/-- Members of a processGroups result either come from a recursive split of
an oversized group or are a stripped group that fits the target size. -/
lemma processGroups_mem (cfg : ChunkerConfig) (tok : Tokenizer)
    (recur : Str → Option (List Str)) :
    ∀ (gs : List Str) (cs : List Str), processGroups cfg tok recur gs = some cs →
      ∀ c ∈ cs,
        (∃ g cs2, cfg.chunkSize < countTokens tok g ∧ recur g = some cs2 ∧ c ∈ cs2) ∨
        (∃ g, countTokens tok g ≤ cfg.chunkSize ∧ c = pyStrip g) := by
  intro gs
  induction gs with
  | nil =>
    intro cs h c hc
    simp [processGroups] at h
    subst h; simp at hc
  | cons g gs ih =>
    intro cs h c hc
    unfold processGroups at h
    by_cases hg : cfg.chunkSize < countTokens tok g
    · rw [if_pos hg] at h
      cases hrec : recur g with
      | none => rw [hrec] at h; simp at h
      | some a =>
        rw [hrec] at h
        cases hrest : processGroups cfg tok recur gs with
        | none => rw [hrest] at h; simp at h
        | some b =>
          rw [hrest] at h
          simp only [Option.some.injEq] at h
          subst h
          rcases List.mem_append.mp hc with h1 | h1
          · exact Or.inl ⟨g, a, hg, hrec, h1⟩
          · exact ih b hrest c h1
    · rw [if_neg hg] at h
      cases hrest : processGroups cfg tok recur gs with
      | none => rw [hrest] at h; simp at h
      | some b =>
        rw [hrest] at h
        simp only [Option.some.injEq] at h
        subst h
        rcases List.mem_append.mp hc with h1 | h1
        · simp only [List.mem_singleton] at h1
          exact Or.inr ⟨g, Nat.le_of_not_lt hg, h1⟩
        · exact ih b hrest c h1

/-- With chunk_overlap zero, every chunk produced by _split_recursive fits
within chunk_size tokens (character tokenizer). -/
lemma splitRecAux_charTok_bound (cfg : ChunkerConfig) (h0 : cfg.chunkOverlap = 0) :
    ∀ (fuel : Nat) (seps : List Str) (text : Str) (cs : List Str),
      splitRecAux cfg charTok fuel seps text = some cs →
      ∀ c ∈ cs, c.length ≤ cfg.chunkSize := by
  intro fuel
  induction fuel with
  | zero => intro seps text cs h; simp [splitRecAux] at h
  | succ fuel ih =>
    intro seps text cs h c hc
    have hbase : countTokens charTok text ≤ cfg.chunkSize →
        some (if (pyStrip text).isEmpty then ([] : List Str) else [pyStrip text]) = some cs →
        c.length ≤ cfg.chunkSize := by
      intro hfit hb
      simp only [Option.some.injEq] at hb
      subst hb
      by_cases he : (pyStrip text).isEmpty
      · simp [he] at hc
      · rw [if_neg he] at hc
        simp only [List.mem_singleton] at hc
        subst hc
        calc (pyStrip text).length ≤ text.length := pyStrip_length_le _
          _ = countTokens charTok text := (countTokens_charTok text).symm
          _ ≤ cfg.chunkSize := hfit
    cases seps with
    | nil =>
      unfold splitRecAux at h
      by_cases hfit : countTokens charTok text ≤ cfg.chunkSize
      · rw [if_pos hfit] at h
        exact hbase hfit h
      · rw [if_neg hfit] at h
        exact forceSplit_charTok_bound cfg text cs h c hc
    | cons sep rest =>
      unfold splitRecAux at h
      by_cases hfit : countTokens charTok text ≤ cfg.chunkSize
      · rw [if_pos hfit] at h
        exact hbase hfit h
      · rw [if_neg hfit] at h
        by_cases hsep : sep.isEmpty
        · rw [if_pos hsep] at h
          exact forceSplit_charTok_bound cfg text cs h c hc
        · rw [if_neg hsep] at h
          cases hpg : processGroups cfg charTok (splitRecAux cfg charTok fuel rest)
              (buildGroups cfg charTok sep (pySplit text sep) []) with
          | none => rw [hpg] at h; simp at h
          | some chunks =>
            rw [hpg] at h
            simp only [Option.map_some', Option.some.injEq] at h
            rw [addOverlap_of_overlap_zero cfg charTok h0] at h
            subst h
            rcases processGroups_mem cfg charTok _ _ _ hpg c hc with
              ⟨g, cs2, _, hrec, hmem⟩ | ⟨g, hle, rfl⟩
            · exact ih rest g cs2 hrec c hmem
            · calc (pyStrip g).length ≤ g.length := pyStrip_length_le _
                _ = countTokens charTok g := (countTokens_charTok g).symm
                _ ≤ cfg.chunkSize := hle

/-- Every chunk record built by the chunk_text loop carries the content of
one raw chunk (contents are never merged) and its token count. -/
lemma buildChunks_mem (cfg : ChunkerConfig) (tok : Tokenizer)
    (pageMap : List (Nat × Nat)) (n : Nat) :
    ∀ (cs : List Str) (idx charOff resLen : Nat) (ch : Chunk),
      ch ∈ buildChunks cfg tok pageMap n cs idx charOff resLen →
      ch.content ∈ cs ∧ ch.tokenCount = countTokens tok ch.content := by
  intro cs
  induction cs with
  | nil => intro idx off k ch h; simp [buildChunks] at h
  | cons c cs ih =>
    intro idx off k ch h
    unfold buildChunks at h
    by_cases hskip : (countTokens tok c < cfg.minChunkSize && idx < n - 1 : Bool)
    · rw [if_pos hskip] at h
      rcases ih _ _ _ ch h with ⟨h1, h2⟩
      exact ⟨List.mem_cons_of_mem c h1, h2⟩
    · rw [if_neg hskip] at h
      rcases List.mem_cons.mp h with rfl | h1
      · exact ⟨List.mem_cons_self _ _, rfl⟩
      · rcases ih _ _ _ ch h1 with ⟨h2, h3⟩
        exact ⟨List.mem_cons_of_mem c h2, h3⟩

/-- The index values produced by the chunk_text loop are consecutive from
the running result length. -/
lemma buildChunks_map_index (cfg : ChunkerConfig) (tok : Tokenizer)
    (pageMap : List (Nat × Nat)) (n : Nat) :
    ∀ (cs : List Str) (idx charOff resLen : Nat),
      (buildChunks cfg tok pageMap n cs idx charOff resLen).map Chunk.index =
        List.range' resLen (buildChunks cfg tok pageMap n cs idx charOff resLen).length := by
  intro cs
  induction cs with
  | nil => intro idx off k; simp [buildChunks]
  | cons c cs ih =>
    intro idx off k
    unfold buildChunks
    by_cases hskip : (countTokens tok c < cfg.minChunkSize && idx < n - 1 : Bool)
    · rw [if_pos hskip]; exact ih _ _ _
    · rw [if_neg hskip]
      simp only [List.map_cons, List.length_cons, List.range'_succ]
      rw [ih _ _ _]

/-- A kept chunk whose token count is below min_chunk_size can only be the
last one: the skip test exempts exactly the final raw chunk. -/
lemma buildChunks_small_last (cfg : ChunkerConfig) (tok : Tokenizer)
    (pageMap : List (Nat × Nat)) (n : Nat) :
    ∀ (cs : List Str) (idx charOff resLen : Nat), idx + cs.length = n →
      ∀ (i : Nat) (ch : Chunk),
        (buildChunks cfg tok pageMap n cs idx charOff resLen).get? i = some ch →
        ch.tokenCount < cfg.minChunkSize →
        i = (buildChunks cfg tok pageMap n cs idx charOff resLen).length - 1 := by
  intro cs
  induction cs with
  | nil => intro idx off k hn i ch h; simp [buildChunks] at h
  | cons c cs ih =>
    intro idx off k hn i ch hget hsmall
    rw [List.length_cons] at hn
    unfold buildChunks at hget ⊢
    by_cases hskip : (countTokens tok c < cfg.minChunkSize && idx < n - 1 : Bool)
    · rw [if_pos hskip] at hget ⊢
      exact ih _ _ _ (by omega) i ch hget hsmall
    · rw [if_neg hskip] at hget ⊢
      match i with
      | 0 =>
        simp only [List.get?_cons_zero, Option.some.injEq] at hget
        subst hget
        have hc0 : countTokens tok c < cfg.minChunkSize := hsmall
        have hidx : ¬ idx < n - 1 := by
          intro hlt
          exact hskip (by simp [hc0, hlt])
        have hnil : cs = [] := List.length_eq_zero.mp (by omega)
        subst hnil
        simp [buildChunks]
      | i + 1 =>
        simp only [List.get?_cons_succ] at hget
        have := ih (idx + 1) (off + c.length) (k + 1) (by omega) i ch hget hsmall
        have hlt := List.get?_eq_some.mp hget
        rcases hlt with ⟨hlen, _⟩
        simp only [List.length_cons]
        omega

/-! ### C6: chunk index contiguity -/

/-- The chunk index values returned by chunk_text are exactly 0..n-1. -/
lemma chunkText_index_range (cfg : ChunkerConfig) (tok : Tokenizer)
    (text : Str) (cs : List Chunk) (h : chunkText cfg tok text = some cs) :
    cs.map Chunk.index = List.range cs.length := by
  unfold chunkText at h
  by_cases hemp : (pyStrip text).isEmpty
  · rw [if_pos hemp] at h
    simp only [Option.some.injEq] at h
    subst h; simp
  · rw [if_neg hemp] at h
    cases hrec : recursiveSplit cfg tok (removeMarkers (cleanText text)) with
    | none => rw [hrec] at h; simp at h
    | some raw =>
      rw [hrec] at h
      simp only [Option.map_some', Option.some.injEq] at h
      subst h
      rw [List.range_eq_range']
      exact buildChunks_map_index cfg tok _ _ raw 0 0 0

/-- C6: for every input text, the chunk index values returned by chunk_text
are exactly 0..n-1: contiguous from zero, strictly increasing, no gaps and
no duplicates. -/
theorem chunk_indices_contiguous (cfg : ChunkerConfig) (tok : Tokenizer)
    (text : Str) (cs : List Chunk) (h : chunkText cfg tok text = some cs) :
    cs.map Chunk.index = List.range cs.length :=
  chunkText_index_range cfg tok text cs h

/-- Witness for C6 at a concrete two-chunk document. -/
theorem chunk_indices_contiguous_witness :
    ([⟨"abcd".data, 0, 0, 4, 4, none, none⟩,
      ⟨"ef".data, 1, 4, 6, 2, none, none⟩] : List Chunk).map Chunk.index =
      List.range 2 :=
  chunk_indices_contiguous ⟨4, 0, 1⟩ charTok ("abcd ef".data) _ (by decide)

/-! ### C9: totality of chunk_text and the zero-stride failure -/

lemma forceSplit_isSome (cfg : ChunkerConfig) (tok : Tokenizer) (text : Str)
    (h : cfg.chunkOverlap < cfg.chunkSize) : (forceSplit cfg tok text).isSome := by
  unfold forceSplit pyRange
  have h1 : ¬ ((cfg.chunkSize : Int) - (cfg.chunkOverlap : Int) = 0) := by
    omega
  have h2 : ¬ ((cfg.chunkSize : Int) - (cfg.chunkOverlap : Int) < 0) := by
    omega
  rw [if_neg h1, if_neg h2]
  simp

lemma processGroups_isSome (cfg : ChunkerConfig) (tok : Tokenizer)
    (recur : Str → Option (List Str)) (hrec : ∀ g, (recur g).isSome) :
    ∀ gs : List Str, (processGroups cfg tok recur gs).isSome := by
  intro gs
  induction gs with
  | nil => simp [processGroups]
  | cons g gs ih =>
    unfold processGroups
    by_cases hg : cfg.chunkSize < countTokens tok g
    · rw [if_pos hg]
      cases hr : recur g with
      | none => have := hrec g; rw [hr] at this; simp at this
      | some a =>
        cases hrest : processGroups cfg tok recur gs with
        | none => rw [hrest] at ih; simp at ih
        | some b => simp
    · rw [if_neg hg]
      cases hrest : processGroups cfg tok recur gs with
      | none => rw [hrest] at ih; simp at ih
      | some b => simp

lemma splitRecAux_isSome (cfg : ChunkerConfig) (tok : Tokenizer)
    (hov : cfg.chunkOverlap < cfg.chunkSize) :
    ∀ (fuel : Nat) (seps : List Str) (text : Str), seps.length < fuel →
      (splitRecAux cfg tok fuel seps text).isSome := by
  intro fuel
  induction fuel with
  | zero => intro seps text h; omega
  | succ fuel ih =>
    intro seps text hlen
    cases seps with
    | nil =>
      unfold splitRecAux
      by_cases hfit : countTokens tok text ≤ cfg.chunkSize
      · rw [if_pos hfit]; simp
      · rw [if_neg hfit]
        exact forceSplit_isSome cfg tok text hov
    | cons sep rest =>
      unfold splitRecAux
      by_cases hfit : countTokens tok text ≤ cfg.chunkSize
      · rw [if_pos hfit]; simp
      · rw [if_neg hfit]
        by_cases hsep : sep.isEmpty
        · rw [if_pos hsep]
          exact forceSplit_isSome cfg tok text hov
        · rw [if_neg hsep]
          have hrest : ∀ g, (splitRecAux cfg tok fuel rest g).isSome := by
            intro g
            apply ih
            simp only [List.length_cons] at hlen
            omega
          cases hpg : processGroups cfg tok (splitRecAux cfg tok fuel rest)
              (buildGroups cfg tok sep (pySplit text sep) []) with
          | none =>
            have := processGroups_isSome cfg tok _ hrest
              (buildGroups cfg tok sep (pySplit text sep) [])
            rw [hpg] at this; simp at this
          | some chunks => simp

/-- C9: chunk_text is total whenever chunk_overlap is strictly below
chunk_size, and with chunk_overlap equal to chunk_size the force-split
fallback calls range with a zero stride, so the call raises (modelled as
none) on an input whose token count exceeds chunk_size instead of
returning a chunk sequence. -/
theorem chunkText_total_iff_overlap_bound :
    (∀ (cfg : ChunkerConfig) (tok : Tokenizer) (text : Str),
      cfg.chunkOverlap < cfg.chunkSize → (chunkText cfg tok text).isSome) ∧
    chunkText ⟨2, 2, 1⟩ charTok ("aaaaa".data) = none := by
  constructor
  · intro cfg tok text hov
    unfold chunkText
    by_cases hemp : (pyStrip text).isEmpty
    · rw [if_pos hemp]; simp
    · rw [if_neg hemp]
      have hsome : (recursiveSplit cfg tok (removeMarkers (cleanText text))).isSome := by
        apply splitRecAux_isSome cfg tok hov
        simp [separators]
      cases hrec : recursiveSplit cfg tok (removeMarkers (cleanText text)) with
      | none => rw [hrec] at hsome; simp at hsome
      | some raw => simp
  · decide

/-- Witness for the hypothesis-bearing half of C9: with chunk_overlap 1
below chunk_size 3 the chunker returns a value on a concrete input. -/
theorem chunkText_total_witness :
    (chunkText ⟨3, 1, 1⟩ charTok ("x".data)).isSome :=
  chunkText_total_iff_overlap_bound.1 ⟨3, 1, 1⟩ charTok ("x".data) (by decide)

/-! ### C3: token bound -/

/-- Base case of _split_recursive: text fitting within chunk_size is
returned as its stripped self (or nothing when whitespace only), for any
separator list and any positive fuel. -/
lemma splitRecAux_base (cfg : ChunkerConfig) (tok : Tokenizer) (fuel : Nat)
    (seps : List Str) (text : Str) (hfit : countTokens tok text ≤ cfg.chunkSize) :
    splitRecAux cfg tok (fuel + 1) seps text =
      some (if (pyStrip text).isEmpty then [] else [pyStrip text]) := by
  cases seps with
  | nil => unfold splitRecAux; rw [if_pos hfit]
  | cons sep rest => unfold splitRecAux; rw [if_pos hfit]

/-- C3 (amended): with chunk_overlap zero, every chunk returned by
chunk_text has tokenCount at most chunk_size.  (The counterexample theorem
shows that with a positive chunk_overlap the injected overlap prefixes make
tokenCount exceed chunk_size, so the bound of the original claim only holds
before overlap injection.) -/
theorem chunk_token_bound_zero_overlap (cfg : ChunkerConfig) (text : Str)
    (cs : List Chunk) (h0 : cfg.chunkOverlap = 0)
    (h : chunkText cfg charTok text = some cs) :
    ∀ ch ∈ cs, ch.tokenCount ≤ cfg.chunkSize := by
  intro ch hch
  unfold chunkText at h
  by_cases hemp : (pyStrip text).isEmpty
  · rw [if_pos hemp] at h
    simp only [Option.some.injEq] at h
    subst h; simp at hch
  · rw [if_neg hemp] at h
    cases hrec : recursiveSplit cfg charTok (removeMarkers (cleanText text)) with
    | none => rw [hrec] at h; simp at h
    | some raw =>
      rw [hrec] at h
      simp only [Option.map_some', Option.some.injEq] at h
      subst h
      rcases buildChunks_mem cfg charTok _ _ raw 0 0 0 ch hch with ⟨hmem, htc⟩
      rw [htc, countTokens_charTok]
      exact splitRecAux_charTok_bound cfg h0 (separators.length + 1) separators
        (removeMarkers (cleanText text)) raw hrec ch.content hmem

/-- Counterexample to C3 as stated: with targetTokenSize 4 and
overlapTokens 2, the two-chunk document built from a nine-character text has
a second chunk of 28 tokens, far above the target, because the overlap
prefix is re-added at every separator recursion level and is counted in
tokenCount. -/
theorem chunk_token_bound_counterexample :
    (chunkText ⟨4, 2, 1⟩ charTok ("aaaa bbbb".data)).map
        (fun cs => cs.map Chunk.tokenCount) = some [4, 28] ∧ 4 < 28 := by
  constructor
  · rfl
  · decide

/-- Witness for the amended C3 at a concrete chunk of a two-chunk
document. -/
theorem chunk_token_bound_zero_overlap_witness :
    (⟨"ef".data, 1, 4, 6, 2, none, none⟩ : Chunk).tokenCount ≤ 4 :=
  chunk_token_bound_zero_overlap ⟨4, 0, 3⟩ ("abcd ef".data)
    [⟨"abcd".data, 0, 0, 4, 4, none, none⟩, ⟨"ef".data, 1, 4, 6, 2, none, none⟩]
    rfl (by decide) ⟨"ef".data, 1, 4, 6, 2, none, none⟩ (by decide)

/-! ### C7: dropping of undersized chunks -/

/-- C7 (amended): a chunk whose tokenCount is below min_chunk_size is kept
only as the last chunk of the document (in particular an only chunk is
always kept), and kept chunks carry raw split contents unchanged: dropped
chunks are never merged into a neighbour. -/
theorem small_chunks_kept_only_if_last (cfg : ChunkerConfig) (tok : Tokenizer)
    (text : Str) (cs : List Chunk) (h : chunkText cfg tok text = some cs) :
    (∀ (i : Nat) (ch : Chunk), cs.get? i = some ch →
      ch.tokenCount < cfg.minChunkSize → i = cs.length - 1) ∧
    (∀ raw, recursiveSplit cfg tok (removeMarkers (cleanText text)) = some raw →
      ∀ ch ∈ cs, ch.content ∈ raw) := by
  unfold chunkText at h
  by_cases hemp : (pyStrip text).isEmpty
  · rw [if_pos hemp] at h
    simp only [Option.some.injEq] at h
    subst h
    constructor
    · intro i ch hget; simp at hget
    · intro raw _ ch hch; simp at hch
  · rw [if_neg hemp] at h
    cases hrec : recursiveSplit cfg tok (removeMarkers (cleanText text)) with
    | none => rw [hrec] at h; simp at h
    | some raw0 =>
      rw [hrec] at h
      simp only [Option.map_some', Option.some.injEq] at h
      subst h
      constructor
      · intro i ch hget hsmall
        exact buildChunks_small_last cfg tok _ _ raw0 0 0 0 (by simp) i ch hget hsmall
      · intro raw hr ch hch
        simp only [Option.some.injEq] at hr
        subst hr
        exact (buildChunks_mem cfg tok _ _ raw0 0 0 0 ch hch).1

/-- Counterexample to C7 as stated: with min_chunk_size 3 the last raw chunk
has only 2 tokens and is kept although it is not the only chunk of the
document. -/
theorem small_chunk_dropping_counterexample :
    (chunkText ⟨4, 0, 3⟩ charTok ("abcd ef".data)).map
        (fun cs => (cs.length, cs.map Chunk.tokenCount)) = some (2, [4, 2]) ∧
      2 < 3 := by
  constructor
  · rfl
  · decide

/-- Witness for the amended C7 at a concrete document whose trailing chunk
is below min_chunk_size. -/
theorem small_chunks_kept_only_if_last_witness :
    (∀ (i : Nat) (ch : Chunk),
      ([⟨"abcd".data, 0, 0, 4, 4, none, none⟩,
        ⟨"ef".data, 1, 4, 6, 2, none, none⟩] : List Chunk).get? i = some ch →
      ch.tokenCount < 3 → i = 2 - 1) ∧
    (∀ raw, recursiveSplit ⟨4, 0, 3⟩ charTok
        (removeMarkers (cleanText ("abcd ef".data))) = some raw →
      ∀ ch ∈ ([⟨"abcd".data, 0, 0, 4, 4, none, none⟩,
                ⟨"ef".data, 1, 4, 6, 2, none, none⟩] : List Chunk),
        ch.content ∈ raw) :=
  small_chunks_kept_only_if_last ⟨4, 0, 3⟩ charTok ("abcd ef".data) _ (by decide)

/-! ### C5: chunk coverage -/

/-- C5 (amended): when the normalized, page-marker-stripped text fits within
chunk_size tokens, chunk_text returns exactly one chunk whose content is
that text (stripped); for longer texts the separators dropped at chunk
boundaries are lost, so concatenation need not reconstruct the input (see
the counterexample). -/
theorem chunk_single_reconstruction (cfg : ChunkerConfig) (tok : Tokenizer)
    (text : Str) (h1 : (pyStrip text).isEmpty = false)
    (h2 : countTokens tok (removeMarkers (cleanText text)) ≤ cfg.chunkSize)
    (h3 : (pyStrip (removeMarkers (cleanText text))).isEmpty = false) :
    chunkText cfg tok text =
      some [{ content := pyStrip (removeMarkers (cleanText text))
              index := 0
              startChar := 0
              endChar := (pyStrip (removeMarkers (cleanText text))).length
              tokenCount := countTokens tok (pyStrip (removeMarkers (cleanText text)))
              pageNumber := findPageNumber 0 (extractPageMarkers (cleanText text)) none
              sectionTitle := extractSectionTitle (pyStrip (removeMarkers (cleanText text))) }] := by
  unfold chunkText
  rw [if_neg (by simp [h1])]
  unfold recursiveSplit
  rw [splitRecAux_base cfg tok separators.length separators _ h2]
  rw [if_neg (by simp [h3])]
  simp only [Option.map_some', Option.some.injEq]
  unfold buildChunks
  rw [if_neg (by simp)]
  unfold buildChunks
  rw [Nat.zero_add]

/-- Counterexample to C5 as stated: a two-chunk document loses the paragraph
separator at the chunk boundary, so the concatenation of chunk contents
(nothing to strip: overlap is zero) differs from the normalized input. -/
theorem chunk_coverage_counterexample :
    (chunkText ⟨4, 0, 1⟩ charTok ("ab

cd".data)).map
        (fun cs => (cs.map Chunk.content).flatten) = some ("abcd".data) ∧
      removeMarkers (cleanText ("ab

cd".data)) = "ab

cd".data ∧
      "abcd".data ≠ "ab

cd".data := by
  refine ⟨rfl, rfl, ?_⟩
  decide

/-- Witness for the amended C5 on a short concrete text. -/
theorem chunk_single_reconstruction_witness :
    chunkText ⟨100, 10, 5⟩ charTok ("Hello world".data) =
      some [{ content := pyStrip (removeMarkers (cleanText ("Hello world".data)))
              index := 0
              startChar := 0
              endChar := (pyStrip (removeMarkers (cleanText ("Hello world".data)))).length
              tokenCount := countTokens charTok (pyStrip (removeMarkers (cleanText ("Hello world".data))))
              pageNumber := findPageNumber 0 (extractPageMarkers (cleanText ("Hello world".data))) none
              sectionTitle := extractSectionTitle (pyStrip (removeMarkers (cleanText ("Hello world".data)))) }] :=
  chunk_single_reconstruction ⟨100, 10, 5⟩ charTok ("Hello world".data)
    (by decide) (by decide) (by decide)

/-! ### C4: overlap injection -/

/-- Positionwise description of the _add_overlap loop: output element i is
computed from the original elements i (previous chunk) and i + 1. -/
lemma addOverlapGo_get? (cfg : ChunkerConfig) (tok : Tokenizer) :
    ∀ (cs : List Str) (prev0 : Str) (i : Nat) (prev cur : Str),
      (prev0 :: cs).get? i = some prev → cs.get? i = some cur →
      (addOverlapGo cfg tok prev0 cs).get? i =
        some (if cfg.chunkOverlap < (tok.encode prev).length then
          pyStrip (tok.decode ((tok.encode prev).drop
            ((tok.encode prev).length - cfg.chunkOverlap))) ++ ' ' :: cur
        else cur) := by
  intro cs
  induction cs with
  | nil => intro prev0 i prev cur hprev hcur; simp at hcur
  | cons c cs ih =>
    intro prev0 i prev cur hprev hcur
    match i with
    | 0 =>
      simp only [List.get?_cons_zero, Option.some.injEq] at hprev hcur
      subst hprev; subst hcur
      rfl
    | i + 1 =>
      simp only [List.get?_cons_succ] at hprev hcur
      unfold addOverlapGo
      simp only [List.get?_cons_succ]
      exact ih c i prev cur hprev hcur

/-- C4 (amended): in _add_overlap, chunk i + 1 is prefixed with the stripped
decoding of the last chunk_overlap tokens of the pre-overlap chunk i
followed by one space, but only when chunk i has strictly more than
chunk_overlap tokens; when chunk i has at most chunk_overlap tokens, chunk
i + 1 is left without any prefix (the original claim expected the full
content of the short chunk as prefix). -/
theorem add_overlap_conditional (cfg : ChunkerConfig) (tok : Tokenizer)
    (chunks : List Str) (i : Nat) (prev cur : Str)
    (hov : 0 < cfg.chunkOverlap) (hlen : 2 ≤ chunks.length)
    (hprev : chunks.get? i = some prev) (hcur : chunks.get? (i + 1) = some cur) :
    (cfg.chunkOverlap < (tok.encode prev).length →
      (addOverlap cfg tok chunks).get? (i + 1) =
        some (pyStrip (tok.decode ((tok.encode prev).drop
          ((tok.encode prev).length - cfg.chunkOverlap))) ++ ' ' :: cur)) ∧
    ((tok.encode prev).length ≤ cfg.chunkOverlap →
      (addOverlap cfg tok chunks).get? (i + 1) = some cur) := by
  have hmain : (addOverlap cfg tok chunks).get? (i + 1) =
      some (if cfg.chunkOverlap < (tok.encode prev).length then
        pyStrip (tok.decode ((tok.encode prev).drop
          ((tok.encode prev).length - cfg.chunkOverlap))) ++ ' ' :: cur
      else cur) := by
    unfold addOverlap
    rw [if_neg (by simp; omega)]
    cases chunks with
    | nil => simp at hlen
    | cons c0 rest =>
      simp only [List.get?_cons_succ] at hcur
      exact addOverlapGo_get? cfg tok rest c0 i prev cur hprev hcur
  constructor
  · intro hgt
    rw [hmain, if_pos hgt]
  · intro hle
    rw [hmain, if_neg (Nat.not_lt.mpr hle)]

/-- Counterexample to C4 as stated: with overlapTokens 3, the first chunk
has only two tokens, so the second chunk receives no prefix at all, although
the claim requires it to be prefixed with the full content of the first
chunk when that content is shorter than overlapTokens. -/
theorem overlap_claim_counterexample :
    (chunkText ⟨4, 3, 1⟩ charTok ("ab cdef".data)).map
        (fun cs => cs.map Chunk.content) =
      some ["ab".data, "cdef".data] ∧
    List.isPrefixOf ("ab".data) ("cdef".data) = false := by
  constructor
  · rfl
  · decide

/-- Witness for the amended C4 on a concrete pre-overlap chunk list. -/
theorem add_overlap_conditional_witness :
    (2 < (charTok.encode ("aaaa".data)).length →
      (addOverlap ⟨4, 2, 1⟩ charTok ["aaaa".data, "bbbb".data]).get? 1 =
        some (pyStrip (charTok.decode ((charTok.encode ("aaaa".data)).drop
          ((charTok.encode ("aaaa".data)).length - 2))) ++ ' ' :: "bbbb".data)) ∧
    ((charTok.encode ("aaaa".data)).length ≤ 2 →
      (addOverlap ⟨4, 2, 1⟩ charTok ["aaaa".data, "bbbb".data]).get? 1 =
        some ("bbbb".data)) :=
  add_overlap_conditional ⟨4, 2, 1⟩ charTok ["aaaa".data, "bbbb".data] 0
    ("aaaa".data) ("bbbb".data) (by decide) (by decide) rfl rfl

/-! ### The ingestion coordinator (run_import_job) and its stores

The background import task of import_routes.py drives, per file: size
filter, download, Document upsert (MetadataStore.upsert_document),
extraction, chunking, embedding, the delete-then-insert replacement of
vectors (VectorStore.delete_by_document, upsert_vectors) and chunk rows
(MetadataStore.delete_chunks_by_document, create_chunks), document status
updates and job counters.  The stores are embedded as in-memory lists; the
remote outcomes of a file (download, extraction, embedding) are fields of
the file descriptor, while chunking runs the real chunker above. -/

/-- One remote file together with the outcomes of its remote interactions
during the job: the download result, the extraction result (error or text,
DocumentExtractor.extract never raises), and the embedding batch result.
The identifier is the SharePoint item id, the natural-key component. -/
structure FileSpec where
  id : String
  name : String
  sizeBytes : Nat
  download : Except String Unit
  extractError : Option String
  extractText : Str
  embed : Except String Unit
  deriving Repr

/-- A documents table row.  The row id is modelled by the natural key the
database generates it for, so that re-upserting the same key keeps the same
row id, exactly as ON CONFLICT DO UPDATE does.  Attribute columns that the
claims never inspect (path, mime type, size, url, hash) are carried by the
source row verbatim and omitted here. -/
structure DocRecord where
  id : String
  connectionId : String
  sharepointId : String
  name : String
  status : String
  chunkCount : Nat
  errorMessage : Option String
  importJobId : String
  deriving DecidableEq, Repr

/-- A chunks table row (MetadataStore.create_chunks). -/
structure ChunkRow where
  documentId : String
  chunkIndex : Nat
  content : Str
  tokenCount : Nat
  startChar : Nat
  endChar : Nat
  vectorId : String × Nat
  deriving DecidableEq, Repr

/-- A vector-store point.  The source encodes the point id as the string
document_id ++ underscore ++ chunk index; it is embedded as the pair. -/
structure VectorRow where
  id : String × Nat
  documentId : String
  chunkIndex : Nat
  content : Str
  connectionId : String
  deriving DecidableEq, Repr

/-- The persistent state the job mutates: documents and chunks tables
(PostgreSQL) and the vector collection (Qdrant). -/
structure Store where
  documents : List DocRecord
  chunks : List ChunkRow
  vectors : List VectorRow
  deriving DecidableEq, Repr

def emptyStore : Store := { documents := [], chunks := [], vectors := [] }

/-- The natural key match of the documents table unique constraint
(connection_id, sharepoint_id). -/
def docKey (d : DocRecord) (conn sp : String) : Bool :=
  d.connectionId == conn && d.sharepointId == sp

/-- The database row id for a natural key (stable across upserts). -/
def docIdFor (conn sp : String) : String := conn ++ ":" ++ sp

/-- MetadataStore.upsert_document: insert a new row or, on conflict of the
natural key, update the attribute columns, reset status to pending and clear
the error message; chunk_count is not in the update list and is kept.
Returns the store and the row id handed back to the caller. -/
def upsertDocument (st : Store) (conn sp name jobId : String) : Store × String :=
  if st.documents.any (fun d => docKey d conn sp) then
    ({ st with documents := st.documents.map fun d =>
        if docKey d conn sp then
          { d with name := name, importJobId := jobId, status := "pending",
                   errorMessage := none }
        else d },
      docIdFor conn sp)
  else
    ({ st with documents := st.documents ++
        [{ id := docIdFor conn sp, connectionId := conn, sharepointId := sp,
           name := name, status := "pending", chunkCount := 0,
           errorMessage := none, importJobId := jobId }] },
      docIdFor conn sp)

/-- MetadataStore.update_document_status: set status, coalesce chunk_count
with the existing value, and overwrite error_message with the argument
(NULL when the caller does not pass one, as the SQL does). -/
def updateDocumentStatus (st : Store) (did status : String)
    (chunkCount : Option Nat) (errMsg : Option String) : Store :=
  { st with documents := st.documents.map fun d =>
      if d.id == did then
        { d with status := status, chunkCount := chunkCount.getD d.chunkCount,
                 errorMessage := errMsg }
      else d }

/-- MetadataStore.delete_chunks_by_document. -/
def deleteChunksByDocument (st : Store) (did : String) : Store :=
  { st with chunks := st.chunks.filter (fun r => !(r.documentId == did)) }

/-- VectorStore.delete_by_document. -/
def deleteVectorsByDocument (st : Store) (did : String) : Store :=
  { st with vectors := st.vectors.filter (fun v => !(v.documentId == did)) }

/-- MetadataStore.create_chunks: bulk insert. -/
def createChunks (st : Store) (rows : List ChunkRow) : Store :=
  { st with chunks := st.chunks ++ rows }

/-- VectorStore.upsert_vectors: replace points with the same id, insert the
rest (Qdrant point upsert). -/
def upsertVectors (st : Store) (rows : List VectorRow) : Store :=
  { st with vectors :=
      st.vectors.filter (fun v => !(rows.any (fun r => r.id == v.id))) ++ rows }

/-- The chunk rows run_import_job builds for a document from the chunker
output. -/
def chunkRowsFor (did : String) (chunks : List Chunk) : List ChunkRow :=
  chunks.map fun c =>
    { documentId := did, chunkIndex := c.index, content := c.content,
      tokenCount := c.tokenCount, startChar := c.startChar, endChar := c.endChar,
      vectorId := (did, c.index) }

/-- The vector points run_import_job builds for a document. -/
def vectorRowsFor (conn did : String) (chunks : List Chunk) : List VectorRow :=
  chunks.map fun c =>
    { id := (did, c.index), documentId := did, chunkIndex := c.index,
      content := c.content, connectionId := conn }

/-- The mutable counters and error log of one ImportJob while the per-file
loop runs. -/
structure JobState where
  filesProcessed : Nat
  filesFailed : Nat
  totalChunks : Nat
  errorLog : List (String × String)
  currentFile : Option String
  deriving DecidableEq, Repr

def initJobState : JobState :=
  { filesProcessed := 0, filesFailed := 0, totalChunks := 0, errorLog := [],
    currentFile := none }

/-- The final ImportJob record written when the loop completes. -/
structure ImportJobRecord where
  status : String
  totalFilesFound : Nat
  filesProcessed : Nat
  filesFailed : Nat
  totalChunksCreated : Nat
  errorLog : List (String × String)
  deriving DecidableEq, Repr

/-- One iteration of the per-file loop of run_import_job.  Store mutations
made before a failure persist, as they do across the Python try body; an
exception reaching the per-file handler appends to the error log and counts
the file failed; the classified extraction failure marks the document failed
without touching the error log; zero chunker output skips the file before
the delete-then-insert step. -/
def processFile (cfg : ChunkerConfig) (tok : Tokenizer) (maxSize : Nat)
    (conn jobId : String) (acc : Store × JobState) (f : FileSpec) :
    Store × JobState :=
  let st := acc.1
  let js := { acc.2 with currentFile := some f.name }
  if maxSize < f.sizeBytes then (st, js)
  else
    match f.download with
    | Except.error e =>
      (st, { js with errorLog := js.errorLog ++ [(f.name, e)],
                     filesFailed := js.filesFailed + 1 })
    | Except.ok _ =>
      let up := upsertDocument st conn f.id f.name jobId
      let st1 := updateDocumentStatus up.1 up.2 "processing" none none
      if f.extractError.isSome || (pyStrip f.extractText).isEmpty then
        (updateDocumentStatus st1 up.2 "failed" none
            (some (f.extractError.getD "No text content")),
          { js with filesFailed := js.filesFailed + 1 })
      else
        match chunkText cfg tok f.extractText with
        | none =>
          (st1,
            { js with
              errorLog := js.errorLog ++ [(f.name, "range() arg 3 must not be zero")],
              filesFailed := js.filesFailed + 1 })
        | some [] => (st1, js)
        | some (c :: cs) =>
          match f.embed with
          | Except.error e =>
            (st1, { js with errorLog := js.errorLog ++ [(f.name, e)],
                            filesFailed := js.filesFailed + 1 })
          | Except.ok _ =>
            let st2 := deleteVectorsByDocument st1 up.2
            let st3 := deleteChunksByDocument st2 up.2
            let st4 := upsertVectors st3 (vectorRowsFor conn up.2 (c :: cs))
            let st5 := createChunks st4 (chunkRowsFor up.2 (c :: cs))
            let st6 := updateDocumentStatus st5 up.2 "indexed"
              (some (c :: cs).length) none
            (st6, { js with filesProcessed := js.filesProcessed + 1,
                            totalChunks := js.totalChunks + (c :: cs).length })

/-- run_import_job after a successful crawl: process every discovered file
in order, then write the completed job record with the final counters.
Setup failures (authentication, folder resolution) short-circuit before
this loop and are out of the scope of the claims below. -/
def runImportJob (cfg : ChunkerConfig) (tok : Tokenizer) (maxSize : Nat)
    (conn jobId : String) (files : List FileSpec) (st : Store) :
    Store × ImportJobRecord :=
  let res := files.foldl (processFile cfg tok maxSize conn jobId) (st, initJobState)
  (res.1,
    { status := "completed", totalFilesFound := files.length,
      filesProcessed := res.2.filesProcessed, filesFailed := res.2.filesFailed,
      totalChunksCreated := res.2.totalChunks, errorLog := res.2.errorLog })

/-- The document row a connection and file key resolve to. -/
def findDoc (st : Store) (conn sp : String) : Option DocRecord :=
  st.documents.find? (fun d => docKey d conn sp)

/-- The chunk rows stored for a document id. -/
def rowsFor (st : Store) (did : String) : List ChunkRow :=
  st.chunks.filter (fun r => r.documentId == did)

/-- The vector points stored for a document id. -/
def vecsFor (st : Store) (did : String) : List VectorRow :=
  st.vectors.filter (fun v => v.documentId == did)

/-! ### Store invariant and helper lemmas for the coordinator proofs -/

lemma string_append_cancel_left (a b c : String) (h : a ++ b = a ++ c) : b = c := by
  have hd : a.data ++ b.data = a.data ++ c.data := by
    have : (a ++ b).data = (a ++ c).data := by rw [h]
    simpa using this
  have hbc : b.data = c.data := List.append_cancel_left hd
  exact congrArg String.mk hbc

lemma docIdFor_inj (conn a b : String) (h : docIdFor conn a = docIdFor conn b) :
    a = b := by
  unfold docIdFor at h
  exact string_append_cancel_left _ a b
    (string_append_cancel_left conn (":" ++ a) (":" ++ b)
      (by rw [← String.append_assoc, ← String.append_assoc, h]))

/-- Well-formedness of the store during a single-connection import: every
document row belongs to the connection and carries the key-derived row id,
row keys are unique (the documents unique constraint), and every vector
point id is the pair the source encodes. -/
def StoreWf (conn : String) (st : Store) : Prop :=
  (∀ d ∈ st.documents, d.connectionId = conn ∧ d.id = docIdFor conn d.sharepointId) ∧
  (st.documents.map DocRecord.sharepointId).Nodup ∧
  (∀ v ∈ st.vectors, v.id = (v.documentId, v.chunkIndex))

lemma storeWf_empty (conn : String) : StoreWf conn emptyStore := by
  refine ⟨?_, ?_, ?_⟩ <;> simp [emptyStore]

/-- find? over a conditional map that only rewrites matching elements. -/
lemma find?_mapIf {α : Type} (l : List α) (p q : α → Bool) (u : α → α)
    (hq : ∀ d ∈ l, q d = p d) (hu : ∀ d ∈ l, p d = true → p (u d) = true) :
    (l.map (fun d => if q d then u d else d)).find? p = (l.find? p).map u := by
  induction l with
  | nil => simp
  | cons d l ih =>
    have hqd : q d = p d := hq d (by simp)
    have ih' := ih (fun e he => hq e (by simp [he])) (fun e he => hu e (by simp [he]))
    rw [List.map_cons]
    by_cases hp : p d = true
    · have h1 : p (u d) = true := hu d (by simp) hp
      have he : (if q d then u d else d) = u d := by rw [hqd]; exact if_pos hp
      rw [he, List.find?_cons_of_pos _ h1, List.find?_cons_of_pos _ hp, Option.map_some']
    · have he : (if q d then u d else d) = d := by rw [hqd]; exact if_neg hp
      rw [he, List.find?_cons_of_neg _ hp, List.find?_cons_of_neg _ hp]
      exact ih'

/-- find? is unchanged by a conditional map whose touched elements never
match the searched predicate, before or after the rewrite. -/
lemma find?_mapIf_other {α : Type} (l : List α) (p q : α → Bool) (u : α → α)
    (h : ∀ d ∈ l, q d = true → p d = false ∧ p (u d) = false) :
    (l.map (fun d => if q d then u d else d)).find? p = l.find? p := by
  induction l with
  | nil => simp
  | cons d l ih =>
    have ih' := ih (fun e he => h e (by simp [he]))
    rw [List.map_cons]
    by_cases hq : q d = true
    · rcases h d (by simp) hq with ⟨h1, h2⟩
      have he : (if q d then u d else d) = u d := if_pos hq
      rw [he, List.find?_cons_of_neg _ (by simp [h2]), List.find?_cons_of_neg _ (by simp [h1])]
      exact ih'
    · have he : (if q d then u d else d) = d := if_neg hq
      by_cases hp : p d = true
      · rw [he, List.find?_cons_of_pos _ hp, List.find?_cons_of_pos _ hp]
      · rw [he, List.find?_cons_of_neg _ hp, List.find?_cons_of_neg _ hp]
        exact ih'

lemma upsertDocument_snd (st : Store) (conn sp name jobId : String) :
    (upsertDocument st conn sp name jobId).2 = docIdFor conn sp := by
  unfold upsertDocument
  split <;> rfl

/-- The record the natural key resolves to after an upsert: the updated
prior row, or the freshly inserted one. -/
lemma findDoc_upsert_self (st : Store) (conn sp name jobId : String) :
    findDoc (upsertDocument st conn sp name jobId).1 conn sp =
      some (match findDoc st conn sp with
        | some d => { d with name := name, importJobId := jobId,
                             status := "pending", errorMessage := none }
        | none => { id := docIdFor conn sp, connectionId := conn,
                    sharepointId := sp, name := name, status := "pending",
                    chunkCount := 0, errorMessage := none,
                    importJobId := jobId }) := by
  unfold upsertDocument findDoc
  by_cases hany : st.documents.any (fun d => docKey d conn sp) = true
  · rw [if_pos hany]
    simp only
    rw [find?_mapIf st.documents (fun d => docKey d conn sp) (fun d => docKey d conn sp)
      _ (fun d _ => rfl) (fun d _ hp => by simpa [docKey] using hp)]
    rcases hf : st.documents.find? (fun d => docKey d conn sp) with _ | d
    · rcases List.any_eq_true.mp hany with ⟨d, hd, hpd⟩
      rw [List.find?_eq_none] at hf
      exact absurd hpd (hf d hd)
    · rfl
  · rw [if_neg hany]
    simp only
    rw [List.find?_append]
    have hnone : st.documents.find? (fun d => docKey d conn sp) = none := by
      rw [List.find?_eq_none]
      intro d hd hpd
      exact hany (List.any_eq_true.mpr ⟨d, hd, hpd⟩)
    rw [hnone]
    simp [docKey]

lemma findDoc_upsert_other (st : Store) (conn sp name jobId sp2 : String)
    (h : sp2 ≠ sp) :
    findDoc (upsertDocument st conn sp name jobId).1 conn sp2 =
      findDoc st conn sp2 := by
  unfold upsertDocument findDoc
  by_cases hany : st.documents.any (fun d => docKey d conn sp) = true
  · rw [if_pos hany]
    simp only
    apply find?_mapIf_other
    intro d _ hq
    have hsp : d.sharepointId = sp := by
      have := (Bool.and_eq_true _ _).mp hq
      exact eq_of_beq this.2
    have hne : (sp == sp2) = false := beq_eq_false_iff_ne.mpr (fun hh => h hh.symm)
    constructor
    · simp [docKey, hsp, hne]
    · simp [docKey, hsp, hne]
  · rw [if_neg hany]
    simp only
    rw [List.find?_append]
    have : ([{ id := docIdFor conn sp, connectionId := conn, sharepointId := sp,
               name := name, status := "pending", chunkCount := 0,
               errorMessage := none, importJobId := jobId }] :
        List DocRecord).find? (fun d => docKey d conn sp2) = none := by
      have hne : (sp == sp2) = false := beq_eq_false_iff_ne.mpr (fun hh => h hh.symm)
      simp [docKey, hne]
    rw [this]
    simp

lemma findDoc_update_self (st : Store) (conn sp status : String)
    (cc : Option Nat) (em : Option String) (hwf : StoreWf conn st) :
    findDoc (updateDocumentStatus st (docIdFor conn sp) status cc em) conn sp =
      (findDoc st conn sp).map (fun d =>
        { d with status := status, chunkCount := cc.getD d.chunkCount,
                 errorMessage := em }) := by
  unfold updateDocumentStatus findDoc
  simp only
  apply find?_mapIf
  · intro d hd
    rcases hwf.1 d hd with ⟨hconn, hid⟩
    show (d.id == docIdFor conn sp) = docKey d conn sp
    rw [hid]
    unfold docKey
    by_cases hsp : d.sharepointId = sp
    · simp [hsp, hconn]
    · have h1 : (docIdFor conn d.sharepointId == docIdFor conn sp) = false := by
        apply beq_eq_false_iff_ne.mpr
        intro hh
        exact hsp (docIdFor_inj conn _ _ hh)
      have h2 : (d.sharepointId == sp) = false := beq_eq_false_iff_ne.mpr hsp
      simp [h1, h2]
  · intro d _ hp
    simpa [docKey] using hp

lemma findDoc_update_other (st : Store) (conn sp status : String)
    (cc : Option Nat) (em : Option String) (sp2 : String) (h : sp2 ≠ sp)
    (hwf : StoreWf conn st) :
    findDoc (updateDocumentStatus st (docIdFor conn sp) status cc em) conn sp2 =
      findDoc st conn sp2 := by
  unfold updateDocumentStatus findDoc
  simp only
  apply find?_mapIf_other
  intro d hd hq
  rcases hwf.1 d hd with ⟨hconn, hid⟩
  have hsp : d.sharepointId = sp := by
    apply docIdFor_inj conn
    rw [← hid]
    exact eq_of_beq hq
  have hne : (sp == sp2) = false := beq_eq_false_iff_ne.mpr (fun hh => h hh.symm)
  constructor
  · simp [docKey, hsp, hne]
  · simp [docKey, hsp, hne]

lemma findDoc_chunkOps (st : Store) (conn sp did : String)
    (rows : List ChunkRow) (vrows : List VectorRow) :
    findDoc (deleteChunksByDocument st did) conn sp = findDoc st conn sp ∧
    findDoc (createChunks st rows) conn sp = findDoc st conn sp ∧
    findDoc (deleteVectorsByDocument st did) conn sp = findDoc st conn sp ∧
    findDoc (upsertVectors st vrows) conn sp = findDoc st conn sp :=
  ⟨rfl, rfl, rfl, rfl⟩

lemma rowsFor_upsertDoc (st : Store) (conn sp name jobId did : String) :
    rowsFor (upsertDocument st conn sp name jobId).1 did = rowsFor st did := by
  unfold upsertDocument
  split <;> rfl

lemma rowsFor_update (st : Store) (did0 status : String) (cc : Option Nat)
    (em : Option String) (did : String) :
    rowsFor (updateDocumentStatus st did0 status cc em) did = rowsFor st did := rfl

lemma vecsFor_upsertDoc (st : Store) (conn sp name jobId did : String) :
    vecsFor (upsertDocument st conn sp name jobId).1 did = vecsFor st did := by
  unfold upsertDocument
  split <;> rfl

lemma vecsFor_update (st : Store) (did0 status : String) (cc : Option Nat)
    (em : Option String) (did : String) :
    vecsFor (updateDocumentStatus st did0 status cc em) did = vecsFor st did := rfl

lemma findDoc_deleteChunks (st : Store) (did conn sp : String) :
    findDoc (deleteChunksByDocument st did) conn sp = findDoc st conn sp := rfl

lemma findDoc_createChunks (st : Store) (rows : List ChunkRow) (conn sp : String) :
    findDoc (createChunks st rows) conn sp = findDoc st conn sp := rfl

lemma findDoc_deleteVectors (st : Store) (did conn sp : String) :
    findDoc (deleteVectorsByDocument st did) conn sp = findDoc st conn sp := rfl

lemma findDoc_upsertVectors (st : Store) (vrows : List VectorRow) (conn sp : String) :
    findDoc (upsertVectors st vrows) conn sp = findDoc st conn sp := rfl

lemma rowsFor_deleteVectors (st : Store) (did0 did : String) :
    rowsFor (deleteVectorsByDocument st did0) did = rowsFor st did := rfl

lemma rowsFor_upsertVectors (st : Store) (vrows : List VectorRow) (did : String) :
    rowsFor (upsertVectors st vrows) did = rowsFor st did := rfl

lemma vecsFor_deleteChunks (st : Store) (did0 did : String) :
    vecsFor (deleteChunksByDocument st did0) did = vecsFor st did := rfl

lemma vecsFor_createChunks (st : Store) (rows : List ChunkRow) (did : String) :
    vecsFor (createChunks st rows) did = vecsFor st did := rfl

lemma rowsFor_delete_self (st : Store) (did : String) :
    rowsFor (deleteChunksByDocument st did) did = [] := by
  unfold rowsFor deleteChunksByDocument
  simp only [List.filter_filter]
  apply List.filter_eq_nil_iff.mpr
  intro r _
  by_cases hr : r.documentId = did <;> simp [hr]

lemma rowsFor_delete_other (st : Store) (did did2 : String) (h : did2 ≠ did) :
    rowsFor (deleteChunksByDocument st did) did2 = rowsFor st did2 := by
  unfold rowsFor deleteChunksByDocument
  simp only [List.filter_filter]
  apply List.filter_congr
  intro r _
  by_cases hr : r.documentId = did2 <;> simp [hr, h]

lemma rowsFor_create_self (st : Store) (did : String) (chunks : List Chunk) :
    rowsFor (createChunks st (chunkRowsFor did chunks)) did =
      rowsFor st did ++ chunkRowsFor did chunks := by
  unfold rowsFor createChunks
  rw [List.filter_append]
  congr 1
  apply List.filter_eq_self.mpr
  intro r hr
  unfold chunkRowsFor at hr
  rcases List.mem_map.mp hr with ⟨c, _, rfl⟩
  simp

lemma rowsFor_create_other (st : Store) (did did2 : String)
    (chunks : List Chunk) (h : did2 ≠ did) :
    rowsFor (createChunks st (chunkRowsFor did chunks)) did2 = rowsFor st did2 := by
  unfold rowsFor createChunks
  rw [List.filter_append]
  have : (chunkRowsFor did chunks).filter (fun r => r.documentId == did2) = [] := by
    apply List.filter_eq_nil_iff.mpr
    intro r hr
    rcases List.mem_map.mp hr with ⟨c, _, rfl⟩
    have hne : (did == did2) = false := beq_eq_false_iff_ne.mpr (fun hh => h hh.symm)
    simp [hne]
  rw [this, List.append_nil]

lemma vecsFor_delete_self (st : Store) (did : String) :
    vecsFor (deleteVectorsByDocument st did) did = [] := by
  unfold vecsFor deleteVectorsByDocument
  simp only [List.filter_filter]
  apply List.filter_eq_nil_iff.mpr
  intro v _
  by_cases hv : v.documentId = did <;> simp [hv]

lemma vecsFor_delete_other (st : Store) (did did2 : String) (h : did2 ≠ did) :
    vecsFor (deleteVectorsByDocument st did) did2 = vecsFor st did2 := by
  unfold vecsFor deleteVectorsByDocument
  simp only [List.filter_filter]
  apply List.filter_congr
  intro v _
  by_cases hv : v.documentId = did2 <;> simp [hv, h]

lemma vecsFor_upsert_self (st : Store) (conn did : String) (chunks : List Chunk)
    (hdel : vecsFor st did = []) :
    vecsFor (upsertVectors st (vectorRowsFor conn did chunks)) did =
      vectorRowsFor conn did chunks := by
  unfold vecsFor upsertVectors
  rw [List.filter_append]
  have h1 : (st.vectors.filter
      (fun v => !((vectorRowsFor conn did chunks).any (fun r => r.id == v.id)))).filter
        (fun v => v.documentId == did) = [] := by
    rw [List.filter_filter]
    apply List.filter_eq_nil_iff.mpr
    intro v hv
    have hnot := List.filter_eq_nil_iff.mp hdel v hv
    by_cases h2 : v.documentId = did <;> simp_all
  have h2 : (vectorRowsFor conn did chunks).filter
      (fun v => v.documentId == did) = vectorRowsFor conn did chunks := by
    apply List.filter_eq_self.mpr
    intro v hv
    rcases List.mem_map.mp hv with ⟨c, _, rfl⟩
    simp
  rw [h1, h2, List.nil_append]

lemma vecsFor_upsert_other (st : Store) (conn did did2 : String)
    (chunks : List Chunk) (h : did2 ≠ did) (hwf : StoreWf conn st) :
    vecsFor (upsertVectors st (vectorRowsFor conn did chunks)) did2 =
      vecsFor st did2 := by
  unfold vecsFor upsertVectors
  rw [List.filter_append]
  have h2 : (vectorRowsFor conn did chunks).filter
      (fun v => v.documentId == did2) = [] := by
    apply List.filter_eq_nil_iff.mpr
    intro v hv
    rcases List.mem_map.mp hv with ⟨c, _, rfl⟩
    have hne : (did == did2) = false := beq_eq_false_iff_ne.mpr (fun hh => h hh.symm)
    simp [hne]
  rw [h2, List.append_nil, List.filter_filter]
  apply List.filter_congr
  intro v hv
  by_cases h3 : v.documentId = did2
  · have hid : v.id = (v.documentId, v.chunkIndex) := hwf.2.2 v hv
    have : (vectorRowsFor conn did chunks).any (fun r => r.id == v.id) = false := by
      apply List.any_eq_false.mpr
      intro r hr
      rcases List.mem_map.mp hr with ⟨c, _, rfl⟩
      simp only [hid, h3]
      intro hcontra
      have := eq_of_beq hcontra
      have : did = did2 := congrArg Prod.fst this
      exact h this.symm
    simp [h3, this]
  · simp [h3]

lemma storeWf_upsert (st : Store) (conn sp name jobId : String)
    (hwf : StoreWf conn st) : StoreWf conn (upsertDocument st conn sp name jobId).1 := by
  unfold upsertDocument
  by_cases hany : st.documents.any (fun d => docKey d conn sp) = true
  · rw [if_pos hany]
    refine ⟨?_, ?_, hwf.2.2⟩
    · intro d' hd'
      rcases List.mem_map.mp hd' with ⟨d, hd, rfl⟩
      rcases hwf.1 d hd with ⟨h1, h2⟩
      by_cases hk : docKey d conn sp = true
      · rw [if_pos hk]; exact ⟨h1, h2⟩
      · rw [if_neg hk]; exact ⟨h1, h2⟩
    · have hmap : (st.documents.map fun d =>
          if docKey d conn sp then
            { d with name := name, importJobId := jobId, status := "pending",
                     errorMessage := none }
          else d).map DocRecord.sharepointId =
            st.documents.map DocRecord.sharepointId := by
        rw [List.map_map]
        apply List.map_congr_left
        intro d _
        by_cases hk : docKey d conn sp = true <;> simp [hk]
      rw [hmap]
      exact hwf.2.1
  · rw [if_neg hany]
    refine ⟨?_, ?_, hwf.2.2⟩
    · intro d' hd'
      rcases List.mem_append.mp hd' with hd' | hd'
      · exact hwf.1 d' hd'
      · simp only [List.mem_singleton] at hd'
        subst hd'
        exact ⟨rfl, rfl⟩
    · rw [List.map_append, List.nodup_append]
      refine ⟨hwf.2.1, by simp, ?_⟩
      intro x hx hx2
      simp only [List.map_cons, List.map_nil, List.mem_singleton] at hx2
      rcases List.mem_map.mp hx with ⟨d, hd, hdx⟩
      have hds : d.sharepointId = sp := by rw [hdx, hx2]
      have hk : docKey d conn sp = true := by
        rcases hwf.1 d hd with ⟨h1, _⟩
        simp [docKey, h1, hds]
      exact hany (List.any_eq_true.mpr ⟨d, hd, hk⟩)

lemma storeWf_update (st : Store) (conn did0 status : String) (cc : Option Nat)
    (em : Option String) (hwf : StoreWf conn st) :
    StoreWf conn (updateDocumentStatus st did0 status cc em) := by
  unfold updateDocumentStatus
  refine ⟨?_, ?_, hwf.2.2⟩
  · intro d' hd'
    rcases List.mem_map.mp hd' with ⟨d, hd, rfl⟩
    rcases hwf.1 d hd with ⟨h1, h2⟩
    by_cases hk : (d.id == did0) = true
    · rw [if_pos hk]; exact ⟨h1, h2⟩
    · rw [if_neg hk]; exact ⟨h1, h2⟩
  · have hmap : (st.documents.map fun d =>
        if d.id == did0 then
          { d with status := status, chunkCount := cc.getD d.chunkCount,
                   errorMessage := em }
        else d).map DocRecord.sharepointId =
          st.documents.map DocRecord.sharepointId := by
      rw [List.map_map]
      apply List.map_congr_left
      intro d _
      by_cases hk : (d.id == did0) = true
      · rw [Function.comp_apply, if_pos hk]
      · rw [Function.comp_apply, if_neg hk]
    rw [hmap]
    exact hwf.2.1

lemma storeWf_chunkOps (st : Store) (conn did : String) (rows : List ChunkRow)
    (hwf : StoreWf conn st) :
    StoreWf conn (deleteChunksByDocument st did) ∧
    StoreWf conn (createChunks st rows) :=
  ⟨hwf, hwf⟩

lemma storeWf_deleteVectors (st : Store) (conn did : String)
    (hwf : StoreWf conn st) : StoreWf conn (deleteVectorsByDocument st did) := by
  refine ⟨hwf.1, hwf.2.1, ?_⟩
  intro v hv
  exact hwf.2.2 v (List.mem_of_mem_filter hv)

lemma storeWf_upsertVectors (st : Store) (conn did2 : String)
    (chunks : List Chunk) (hwf : StoreWf conn st) :
    StoreWf conn (upsertVectors st (vectorRowsFor conn did2 chunks)) := by
  refine ⟨hwf.1, hwf.2.1, ?_⟩
  intro v hv
  rcases List.mem_append.mp hv with hv | hv
  · exact hwf.2.2 v (List.mem_of_mem_filter hv)
  · rcases List.mem_map.mp hv with ⟨c, _, rfl⟩
    rfl

/-! ### The per-file outcome of run_import_job -/

/-- The document row state the per-file pipeline leaves for its own key, as
a function of the file and the previously stored row. -/
def pipelineDoc (conn sp name jobId status : String) (cc : Nat)
    (em : Option String) : DocRecord :=
  { id := docIdFor conn sp, connectionId := conn, sharepointId := sp,
    name := name, status := status, chunkCount := cc, errorMessage := em,
    importJobId := jobId }

/-- The chunk count carried over from the previously stored row (zero for a
fresh row, matching the column default). -/
def priorCount (prior : Option DocRecord) : Nat :=
  (prior.map DocRecord.chunkCount).getD 0

/-- Resulting document row of one per-file iteration, keyed by the file:
skipped and download-failed files leave the prior row; extraction failures
leave the row failed; chunker exceptions, zero-chunk output and embedding
failures leave it processing; the full pipeline leaves it indexed with the
new chunk count. -/
def outcomeDoc (cfg : ChunkerConfig) (tok : Tokenizer) (maxSize : Nat)
    (conn jobId : String) (f : FileSpec) (prior : Option DocRecord) :
    Option DocRecord :=
  if maxSize < f.sizeBytes then prior
  else match f.download with
  | Except.error _ => prior
  | Except.ok _ =>
    if f.extractError.isSome || (pyStrip f.extractText).isEmpty then
      some (pipelineDoc conn f.id f.name jobId "failed" (priorCount prior)
        (some (f.extractError.getD "No text content")))
    else match chunkText cfg tok f.extractText with
    | none => some (pipelineDoc conn f.id f.name jobId "processing" (priorCount prior) none)
    | some [] => some (pipelineDoc conn f.id f.name jobId "processing" (priorCount prior) none)
    | some (c :: cs) => match f.embed with
      | Except.error _ =>
        some (pipelineDoc conn f.id f.name jobId "processing" (priorCount prior) none)
      | Except.ok _ =>
        some (pipelineDoc conn f.id f.name jobId "indexed" (c :: cs).length none)

/-- The chunks the per-file pipeline stores (replacing all prior rows and
vectors) when it reaches the insert step, none otherwise. -/
def outcomeIndexed (cfg : ChunkerConfig) (tok : Tokenizer) (maxSize : Nat)
    (f : FileSpec) : Option (List Chunk) :=
  if maxSize < f.sizeBytes then none
  else match f.download with
  | Except.error _ => none
  | Except.ok _ =>
    if f.extractError.isSome || (pyStrip f.extractText).isEmpty then none
    else match chunkText cfg tok f.extractText with
    | none => none
    | some [] => none
    | some (c :: cs) => match f.embed with
      | Except.error _ => none
      | Except.ok _ => some (c :: cs)

lemma findDoc_upsert_processing (st : Store) (conn sp name jobId : String)
    (hwf : StoreWf conn st) :
    findDoc (updateDocumentStatus (upsertDocument st conn sp name jobId).1
        (docIdFor conn sp) "processing" none none) conn sp =
      some (pipelineDoc conn sp name jobId "processing"
        (priorCount (findDoc st conn sp)) none) := by
  rw [findDoc_update_self _ _ _ _ _ _ (storeWf_upsert st conn sp name jobId hwf),
    findDoc_upsert_self]
  cases hf : findDoc st conn sp with
  | none => simp [pipelineDoc, priorCount]
  | some d =>
    have hf2 : st.documents.find? (fun e => docKey e conn sp) = some d := hf
    have hd : d ∈ st.documents := List.mem_of_find?_eq_some hf2
    have hp : docKey d conn sp = true := by
      have h5 := List.find?_some hf2
      simpa using h5
    have hsp : d.sharepointId = sp := eq_of_beq ((Bool.and_eq_true _ _).mp hp).2
    rcases hwf.1 d hd with ⟨hconn, hid⟩
    rcases d with ⟨id0, conn0, sp0, name0, status0, cc0, em0, job0⟩
    simp only at hconn hid hsp
    subst hconn; subst hsp
    simp [pipelineDoc, priorCount, hid]

/-- Effect of one per-file iteration on the store: its own document row and
chunk/vector rows become a function of the file and the prior row (the
delete-then-insert replacement), well-formedness is preserved, and rows of
every other natural key are untouched. -/
lemma processFile_effects (cfg : ChunkerConfig) (tok : Tokenizer) (maxSize : Nat)
    (conn jobId : String) (st : Store) (js : JobState) (f : FileSpec)
    (hwf : StoreWf conn st) :
    findDoc (processFile cfg tok maxSize conn jobId (st, js) f).1 conn f.id =
      outcomeDoc cfg tok maxSize conn jobId f (findDoc st conn f.id) ∧
    rowsFor (processFile cfg tok maxSize conn jobId (st, js) f).1 (docIdFor conn f.id) =
      (match outcomeIndexed cfg tok maxSize f with
       | some chunks => chunkRowsFor (docIdFor conn f.id) chunks
       | none => rowsFor st (docIdFor conn f.id)) ∧
    vecsFor (processFile cfg tok maxSize conn jobId (st, js) f).1 (docIdFor conn f.id) =
      (match outcomeIndexed cfg tok maxSize f with
       | some chunks => vectorRowsFor conn (docIdFor conn f.id) chunks
       | none => vecsFor st (docIdFor conn f.id)) ∧
    StoreWf conn (processFile cfg tok maxSize conn jobId (st, js) f).1 ∧
    (∀ sp2, sp2 ≠ f.id →
      findDoc (processFile cfg tok maxSize conn jobId (st, js) f).1 conn sp2 =
        findDoc st conn sp2 ∧
      rowsFor (processFile cfg tok maxSize conn jobId (st, js) f).1 (docIdFor conn sp2) =
        rowsFor st (docIdFor conn sp2) ∧
      vecsFor (processFile cfg tok maxSize conn jobId (st, js) f).1 (docIdFor conn sp2) =
        vecsFor st (docIdFor conn sp2)) := by
  have hwf1 : StoreWf conn (upsertDocument st conn f.id f.name jobId).1 :=
    storeWf_upsert st conn f.id f.name jobId hwf
  have hwf2 : StoreWf conn (updateDocumentStatus
      (upsertDocument st conn f.id f.name jobId).1 (docIdFor conn f.id)
      "processing" none none) :=
    storeWf_update _ conn _ _ _ _ hwf1
  simp only [processFile, outcomeDoc, outcomeIndexed]
  by_cases hsize : maxSize < f.sizeBytes
  · simp only [if_pos hsize]
    exact ⟨by trivial, by trivial, by trivial, hwf,
      fun sp2 _ => ⟨by trivial, by trivial, by trivial⟩⟩
  · simp only [if_neg hsize]
    cases hdl : f.download with
    | error e =>
      exact ⟨by trivial, by trivial, by trivial, hwf,
        fun sp2 _ => ⟨by trivial, by trivial, by trivial⟩⟩
    | ok u =>
      cases u
      rw [upsertDocument_snd]
      by_cases hex : (f.extractError.isSome || (pyStrip f.extractText).isEmpty) = true
      · simp only [if_pos hex]
        refine ⟨?_, ?_, ?_, ?_, fun sp2 hsp2 => ⟨?_, ?_, ?_⟩⟩
        · rw [findDoc_update_self _ _ _ _ _ _ hwf2,
            findDoc_upsert_processing st conn f.id f.name jobId hwf]
          simp [pipelineDoc]
        · rw [rowsFor_update,
            rowsFor_update,
            rowsFor_upsertDoc]
        · rw [vecsFor_update,
            vecsFor_update,
            vecsFor_upsertDoc]
        · exact storeWf_update _ conn _ _ _ _ hwf2
        · have hne := fun hh => hsp2 (docIdFor_inj conn _ _ hh)
          rw [findDoc_update_other _ conn f.id _ _ _ _ hsp2 hwf2,
            findDoc_update_other _ conn f.id _ _ _ _ hsp2 hwf1,
            findDoc_upsert_other st conn f.id f.name jobId _ hsp2]
        · rw [rowsFor_update,
            rowsFor_update,
            rowsFor_upsertDoc]
        · rw [vecsFor_update,
            vecsFor_update,
            vecsFor_upsertDoc]
      · simp only [if_neg hex]
        cases hck : chunkText cfg tok f.extractText with
        | none =>
          refine ⟨?_, ?_, ?_, hwf2, fun sp2 hsp2 => ⟨?_, ?_, ?_⟩⟩
          · exact findDoc_upsert_processing st conn f.id f.name jobId hwf
          · rw [rowsFor_update,
              rowsFor_upsertDoc]
          · rw [vecsFor_update,
              vecsFor_upsertDoc]
          · rw [findDoc_update_other _ conn f.id _ _ _ _ hsp2 hwf1,
              findDoc_upsert_other st conn f.id f.name jobId _ hsp2]
          · rw [rowsFor_update,
              rowsFor_upsertDoc]
          · rw [vecsFor_update,
              vecsFor_upsertDoc]
        | some chunks =>
          cases chunks with
          | nil =>
            refine ⟨?_, ?_, ?_, hwf2, fun sp2 hsp2 => ⟨?_, ?_, ?_⟩⟩
            · exact findDoc_upsert_processing st conn f.id f.name jobId hwf
            · rw [rowsFor_update,
                rowsFor_upsertDoc]
            · rw [vecsFor_update,
                vecsFor_upsertDoc]
            · rw [findDoc_update_other _ conn f.id _ _ _ _ hsp2 hwf1,
                findDoc_upsert_other st conn f.id f.name jobId _ hsp2]
            · rw [rowsFor_update,
                rowsFor_upsertDoc]
            · rw [vecsFor_update,
                vecsFor_upsertDoc]
          | cons c cs =>
            cases hemb : f.embed with
            | error e =>
              refine ⟨?_, ?_, ?_, hwf2, fun sp2 hsp2 => ⟨?_, ?_, ?_⟩⟩
              · exact findDoc_upsert_processing st conn f.id f.name jobId hwf
              · rw [rowsFor_update,
                  rowsFor_upsertDoc]
              · rw [vecsFor_update,
                  vecsFor_upsertDoc]
              · rw [findDoc_update_other _ conn f.id _ _ _ _ hsp2 hwf1,
                  findDoc_upsert_other st conn f.id f.name jobId _ hsp2]
              · rw [rowsFor_update,
                  rowsFor_upsertDoc]
              · rw [vecsFor_update,
                  vecsFor_upsertDoc]
            | ok u2 =>
              cases u2
              have hwf3 : StoreWf conn (deleteVectorsByDocument
                  (updateDocumentStatus (upsertDocument st conn f.id f.name jobId).1
                    (docIdFor conn f.id) "processing" none none)
                  (docIdFor conn f.id)) :=
                storeWf_deleteVectors _ conn _ hwf2
              have hwf4 : StoreWf conn (deleteChunksByDocument
                  (deleteVectorsByDocument (updateDocumentStatus
                    (upsertDocument st conn f.id f.name jobId).1 (docIdFor conn f.id)
                    "processing" none none) (docIdFor conn f.id))
                  (docIdFor conn f.id)) := hwf3
              have hwf5 : StoreWf conn (upsertVectors
                  (deleteChunksByDocument (deleteVectorsByDocument
                    (updateDocumentStatus (upsertDocument st conn f.id f.name jobId).1
                      (docIdFor conn f.id) "processing" none none)
                    (docIdFor conn f.id)) (docIdFor conn f.id))
                  (vectorRowsFor conn (docIdFor conn f.id) (c :: cs))) :=
                storeWf_upsertVectors _ conn (docIdFor conn f.id) (c :: cs) hwf4
              have hwf6 : StoreWf conn (createChunks (upsertVectors
                  (deleteChunksByDocument (deleteVectorsByDocument
                    (updateDocumentStatus (upsertDocument st conn f.id f.name jobId).1
                      (docIdFor conn f.id) "processing" none none)
                    (docIdFor conn f.id)) (docIdFor conn f.id))
                  (vectorRowsFor conn (docIdFor conn f.id) (c :: cs)))
                  (chunkRowsFor (docIdFor conn f.id) (c :: cs))) := hwf5
              refine ⟨?_, ?_, ?_, storeWf_update _ conn _ _ _ _ hwf6,
                fun sp2 hsp2 => ⟨?_, ?_, ?_⟩⟩
              · rw [findDoc_update_self _ _ _ _ _ _ hwf6, findDoc_createChunks,
                  findDoc_upsertVectors, findDoc_deleteChunks, findDoc_deleteVectors,
                  findDoc_upsert_processing st conn f.id f.name jobId hwf]
                simp [pipelineDoc]
              · rw [rowsFor_update, rowsFor_create_self, rowsFor_upsertVectors,
                  rowsFor_delete_self, List.nil_append]
              · rw [vecsFor_update, vecsFor_createChunks]
                apply vecsFor_upsert_self
                rw [vecsFor_deleteChunks]
                exact vecsFor_delete_self _ _
              · rw [findDoc_update_other _ conn f.id _ _ _ _ hsp2 hwf6,
                  findDoc_createChunks, findDoc_upsertVectors, findDoc_deleteChunks,
                  findDoc_deleteVectors,
                  findDoc_update_other _ conn f.id _ _ _ _ hsp2 hwf1,
                  findDoc_upsert_other st conn f.id f.name jobId _ hsp2]
              · have hne : docIdFor conn sp2 ≠ docIdFor conn f.id :=
                  fun hh => hsp2 (docIdFor_inj conn _ _ hh)
                rw [rowsFor_update, rowsFor_create_other _ _ _ _ hne,
                  rowsFor_upsertVectors, rowsFor_delete_other _ _ _ hne,
                  rowsFor_deleteVectors, rowsFor_update, rowsFor_upsertDoc]
              · have hne : docIdFor conn sp2 ≠ docIdFor conn f.id :=
                  fun hh => hsp2 (docIdFor_inj conn _ _ hh)
                rw [vecsFor_update, vecsFor_createChunks,
                  vecsFor_upsert_other _ conn _ _ _ hne hwf4, vecsFor_deleteChunks,
                  vecsFor_delete_other _ _ _ hne, vecsFor_update, vecsFor_upsertDoc]

lemma outcomeIndexed_eq_chunkText (cfg : ChunkerConfig) (tok : Tokenizer)
    (maxSize : Nat) (f : FileSpec) (chunks : List Chunk)
    (h : outcomeIndexed cfg tok maxSize f = some chunks) :
    chunkText cfg tok f.extractText = some chunks := by
  unfold outcomeIndexed at h
  by_cases hsize : maxSize < f.sizeBytes
  · rw [if_pos hsize] at h; simp at h
  · rw [if_neg hsize] at h
    cases hdl : f.download with
    | error e => rw [hdl] at h; simp at h
    | ok u =>
      rw [hdl] at h
      by_cases hex : (f.extractError.isSome || (pyStrip f.extractText).isEmpty) = true
      · rw [if_pos hex] at h; simp at h
      · rw [if_neg hex] at h
        cases hck : chunkText cfg tok f.extractText with
        | none => rw [hck] at h; simp at h
        | some chunks2 =>
          rw [hck] at h
          cases chunks2 with
          | nil => simp at h
          | cons c cs =>
            cases hemb : f.embed with
            | error e => rw [hemb] at h; simp at h
            | ok u2 =>
              rw [hemb] at h
              simp only [Option.some.injEq] at h
              rw [h]

/-- Re-running the per-file pipeline over its own previous outcome leaves
the document's chunk count and status unchanged. -/
lemma outcomeDoc_stable (cfg : ChunkerConfig) (tok : Tokenizer) (maxSize : Nat)
    (conn jobId jobId2 : String) (f : FileSpec) (p : Option DocRecord) :
    (outcomeDoc cfg tok maxSize conn jobId2 f
        (outcomeDoc cfg tok maxSize conn jobId f p)).map DocRecord.chunkCount =
      (outcomeDoc cfg tok maxSize conn jobId f p).map DocRecord.chunkCount ∧
    (outcomeDoc cfg tok maxSize conn jobId2 f
        (outcomeDoc cfg tok maxSize conn jobId f p)).map DocRecord.status =
      (outcomeDoc cfg tok maxSize conn jobId f p).map DocRecord.status := by
  unfold outcomeDoc
  by_cases hsize : maxSize < f.sizeBytes
  · simp only [if_pos hsize]; exact ⟨by trivial, by trivial⟩
  · simp only [if_neg hsize]
    cases hdl : f.download with
    | error e => exact ⟨by trivial, by trivial⟩
    | ok u =>
      by_cases hex : (f.extractError.isSome || (pyStrip f.extractText).isEmpty) = true
      · simp only [if_pos hex]
        constructor <;> simp [pipelineDoc, priorCount]
      · simp only [if_neg hex]
        cases hck : chunkText cfg tok f.extractText with
        | none => constructor <;> simp [pipelineDoc, priorCount]
        | some chunks =>
          cases chunks with
          | nil => constructor <;> simp [pipelineDoc, priorCount]
          | cons c cs =>
            cases hemb : f.embed with
            | error e => constructor <;> simp [pipelineDoc, priorCount]
            | ok u2 => constructor <;> simp [pipelineDoc, priorCount]

lemma chunkRows_index_nodup (cfg : ChunkerConfig) (tok : Tokenizer) (text : Str)
    (chunks : List Chunk) (did : String)
    (h : chunkText cfg tok text = some chunks) :
    ((chunkRowsFor did chunks).map ChunkRow.chunkIndex).Nodup := by
  have hidx := chunkText_index_range cfg tok text chunks h
  have hmap : (chunkRowsFor did chunks).map ChunkRow.chunkIndex =
      chunks.map Chunk.index := by
    unfold chunkRowsFor
    rw [List.map_map]
    rfl
  rw [hmap, hidx]
  exact List.nodup_range _

lemma filter_key_len (l : List DocRecord) (conn sp : String)
    (hnd : (l.map DocRecord.sharepointId).Nodup) :
    (l.filter (fun d => docKey d conn sp)).length ≤ 1 := by
  induction l with
  | nil => simp
  | cons d l ih =>
    rw [List.map_cons, List.nodup_cons] at hnd
    by_cases hk : docKey d conn sp = true
    · rw [List.filter_cons_of_pos (p := fun e => docKey e conn sp) hk]
      have hsp : d.sharepointId = sp := eq_of_beq ((Bool.and_eq_true _ _).mp hk).2
      have hnil : l.filter (fun e => docKey e conn sp) = [] := by
        apply List.filter_eq_nil_iff.mpr
        intro e he hke
        have hesp : e.sharepointId = sp := eq_of_beq ((Bool.and_eq_true _ _).mp hke).2
        exact hnd.1 (by rw [hsp, ← hesp]; exact List.mem_map_of_mem _ he)
      rw [hnil]
      simp
    · rw [List.filter_cons_of_neg (p := fun e => docKey e conn sp) hk]
      exact ih hnd.2

/-- Effect of the whole per-file loop: well-formedness is preserved, keys of
files outside the list are untouched, and every listed file's rows end in
the state the per-file outcome functions describe (each file is processed
exactly once: the ids are distinct). -/
lemma runFold_effects (cfg : ChunkerConfig) (tok : Tokenizer) (maxSize : Nat)
    (conn jobId : String) :
    ∀ (files : List FileSpec) (st : Store) (js : JobState), StoreWf conn st →
      ((files.map FileSpec.id).Nodup) →
      StoreWf conn ((files.foldl (processFile cfg tok maxSize conn jobId) (st, js)).1) ∧
      (∀ sp2, (∀ f ∈ files, f.id ≠ sp2) →
        findDoc ((files.foldl (processFile cfg tok maxSize conn jobId) (st, js)).1) conn sp2 =
          findDoc st conn sp2 ∧
        rowsFor ((files.foldl (processFile cfg tok maxSize conn jobId) (st, js)).1) (docIdFor conn sp2) =
          rowsFor st (docIdFor conn sp2) ∧
        vecsFor ((files.foldl (processFile cfg tok maxSize conn jobId) (st, js)).1) (docIdFor conn sp2) =
          vecsFor st (docIdFor conn sp2)) ∧
      (∀ f ∈ files,
        findDoc ((files.foldl (processFile cfg tok maxSize conn jobId) (st, js)).1) conn f.id =
          outcomeDoc cfg tok maxSize conn jobId f (findDoc st conn f.id) ∧
        rowsFor ((files.foldl (processFile cfg tok maxSize conn jobId) (st, js)).1) (docIdFor conn f.id) =
          (match outcomeIndexed cfg tok maxSize f with
           | some chunks => chunkRowsFor (docIdFor conn f.id) chunks
           | none => rowsFor st (docIdFor conn f.id)) ∧
        vecsFor ((files.foldl (processFile cfg tok maxSize conn jobId) (st, js)).1) (docIdFor conn f.id) =
          (match outcomeIndexed cfg tok maxSize f with
           | some chunks => vectorRowsFor conn (docIdFor conn f.id) chunks
           | none => vecsFor st (docIdFor conn f.id))) := by
  intro files
  induction files with
  | nil =>
    intro st js hwf _
    exact ⟨hwf, fun sp2 _ => ⟨rfl, rfl, rfl⟩, by simp⟩
  | cons f0 rest ih =>
    intro st js hwf hnd
    rw [List.map_cons, List.nodup_cons] at hnd
    obtain ⟨e1, e2, e3, e4, e5⟩ :=
      processFile_effects cfg tok maxSize conn jobId st js f0 hwf
    obtain ⟨ihwf, ihframe, ihself⟩ :=
      ih (processFile cfg tok maxSize conn jobId (st, js) f0).1
        (processFile cfg tok maxSize conn jobId (st, js) f0).2 e4 hnd.2
    rw [List.foldl_cons]
    refine ⟨ihwf, ?_, ?_⟩
    · intro sp2 hsp2
      obtain ⟨i1, i2, i3⟩ := ihframe sp2 (fun g hg => hsp2 g (List.mem_cons_of_mem _ hg))
      obtain ⟨j1, j2, j3⟩ := e5 sp2 (fun hh => hsp2 f0 (List.mem_cons_self _ _) hh.symm)
      exact ⟨by rw [i1, j1], by rw [i2, j2], by rw [i3, j3]⟩
    · intro f hf
      rcases List.mem_cons.mp hf with rfl | hf
      · have hrest : ∀ g ∈ rest, g.id ≠ f.id := by
          intro g hg hgid
          exact hnd.1 (by rw [← hgid]; exact List.mem_map_of_mem _ hg)
        obtain ⟨i1, i2, i3⟩ := ihframe f.id hrest
        exact ⟨by rw [i1, e1], by rw [i2, e2], by rw [i3, e3]⟩
      · have hne : f.id ≠ f0.id := by
          intro hh
          exact hnd.1 (by rw [← hh]; exact List.mem_map_of_mem _ hf)
        obtain ⟨i1, i2, i3⟩ := ihself f hf
        obtain ⟨j1, j2, j3⟩ := e5 f.id hne
        refine ⟨by rw [i1, j1], ?_, ?_⟩
        · rw [i2]
          cases outcomeIndexed cfg tok maxSize f with
          | none => exact j2
          | some chunks => rfl
        · rw [i3]
          cases outcomeIndexed cfg tok maxSize f with
          | none => exact j3
          | some chunks => rfl

/-! ### C1: idempotent re-import -/

/-- C1: re-running the import over an unchanged file list is idempotent at
the document level.  The per-file pipeline replaces (deletes then inserts)
all vectors and chunk rows of its document, the Document row is upserted on
the natural key (connection id, remote file id) and never duplicated, and a
second identical run leaves each document with the same chunkCount and
status, exactly the same chunk rows and vector points, and no duplicate
chunk rows (chunk indexes are pairwise distinct). -/
theorem reimport_idempotent (cfg : ChunkerConfig) (tok : Tokenizer)
    (maxSize : Nat) (conn jobId jobId2 : String) (files : List FileSpec)
    (s1 s2 : Store) (hnd : (files.map FileSpec.id).Nodup)
    (h1 : s1 = (runImportJob cfg tok maxSize conn jobId files emptyStore).1)
    (h2 : s2 = (runImportJob cfg tok maxSize conn jobId2 files s1).1) :
    ∀ f ∈ files,
      (s2.documents.filter (fun d => docKey d conn f.id)).length ≤ 1 ∧
      (findDoc s2 conn f.id).map DocRecord.chunkCount =
        (findDoc s1 conn f.id).map DocRecord.chunkCount ∧
      (findDoc s2 conn f.id).map DocRecord.status =
        (findDoc s1 conn f.id).map DocRecord.status ∧
      rowsFor s2 (docIdFor conn f.id) = rowsFor s1 (docIdFor conn f.id) ∧
      vecsFor s2 (docIdFor conn f.id) = vecsFor s1 (docIdFor conn f.id) ∧
      ((rowsFor s2 (docIdFor conn f.id)).map ChunkRow.chunkIndex).Nodup := by
  subst h1; subst h2
  intro f hf
  obtain ⟨hwf1, _, hself1⟩ := runFold_effects cfg tok maxSize conn jobId files
    emptyStore initJobState (storeWf_empty conn) hnd
  obtain ⟨hwf2, _, hself2⟩ := runFold_effects cfg tok maxSize conn jobId2 files
    (runImportJob cfg tok maxSize conn jobId files emptyStore).1 initJobState hwf1 hnd
  obtain ⟨d1, r1, v1⟩ := hself1 f hf
  obtain ⟨d2, r2, v2⟩ := hself2 f hf
  have hrun : ∀ (jid : String) (st : Store),
      (files.foldl (processFile cfg tok maxSize conn jid) (st, initJobState)).1 =
        (runImportJob cfg tok maxSize conn jid files st).1 := fun _ _ => rfl
  rw [hrun] at d1 r1 v1 d2 r2 v2
  have hnone : findDoc emptyStore conn f.id = none := rfl
  rw [hnone] at d1
  refine ⟨?_, ?_, ?_, ?_, ?_, ?_⟩
  · exact filter_key_len _ conn f.id hwf2.2.1
  · rw [d2, d1]
    exact (outcomeDoc_stable cfg tok maxSize conn jobId jobId2 f none).1
  · rw [d2, d1]
    exact (outcomeDoc_stable cfg tok maxSize conn jobId jobId2 f none).2
  · rw [r2, r1]
    cases outcomeIndexed cfg tok maxSize f with
    | none => rfl
    | some chunks => rfl
  · rw [v2, v1]
    cases outcomeIndexed cfg tok maxSize f with
    | none => rfl
    | some chunks => rfl
  · rw [r2]
    cases ho : outcomeIndexed cfg tok maxSize f with
    | none =>
      rw [r1, ho]
      have : rowsFor emptyStore (docIdFor conn f.id) = [] := rfl
      rw [this]
      exact List.nodup_nil
    | some chunks =>
      exact chunkRows_index_nodup cfg tok f.extractText chunks _
        (outcomeIndexed_eq_chunkText cfg tok maxSize f chunks ho)

/-- Witness for C1: the idempotency conclusions at a one-file folder. -/
theorem reimport_idempotent_witness :
    ((runImportJob ⟨4, 0, 1⟩ charTok 100 "c" "j2"
        [⟨"a1", "one.txt", 10, Except.ok (), none, "hi".data, Except.ok ()⟩]
        (runImportJob ⟨4, 0, 1⟩ charTok 100 "c" "j"
          [⟨"a1", "one.txt", 10, Except.ok (), none, "hi".data, Except.ok ()⟩]
          emptyStore).1).1.documents.filter
      (fun d => docKey d "c" "a1")).length ≤ 1 ∧
    (findDoc (runImportJob ⟨4, 0, 1⟩ charTok 100 "c" "j2"
        [⟨"a1", "one.txt", 10, Except.ok (), none, "hi".data, Except.ok ()⟩]
        (runImportJob ⟨4, 0, 1⟩ charTok 100 "c" "j"
          [⟨"a1", "one.txt", 10, Except.ok (), none, "hi".data, Except.ok ()⟩]
          emptyStore).1).1 "c" "a1").map DocRecord.chunkCount =
      (findDoc (runImportJob ⟨4, 0, 1⟩ charTok 100 "c" "j"
        [⟨"a1", "one.txt", 10, Except.ok (), none, "hi".data, Except.ok ()⟩]
        emptyStore).1 "c" "a1").map DocRecord.chunkCount ∧
    (findDoc (runImportJob ⟨4, 0, 1⟩ charTok 100 "c" "j2"
        [⟨"a1", "one.txt", 10, Except.ok (), none, "hi".data, Except.ok ()⟩]
        (runImportJob ⟨4, 0, 1⟩ charTok 100 "c" "j"
          [⟨"a1", "one.txt", 10, Except.ok (), none, "hi".data, Except.ok ()⟩]
          emptyStore).1).1 "c" "a1").map DocRecord.status =
      (findDoc (runImportJob ⟨4, 0, 1⟩ charTok 100 "c" "j"
        [⟨"a1", "one.txt", 10, Except.ok (), none, "hi".data, Except.ok ()⟩]
        emptyStore).1 "c" "a1").map DocRecord.status ∧
    rowsFor (runImportJob ⟨4, 0, 1⟩ charTok 100 "c" "j2"
        [⟨"a1", "one.txt", 10, Except.ok (), none, "hi".data, Except.ok ()⟩]
        (runImportJob ⟨4, 0, 1⟩ charTok 100 "c" "j"
          [⟨"a1", "one.txt", 10, Except.ok (), none, "hi".data, Except.ok ()⟩]
          emptyStore).1).1 (docIdFor "c" "a1") =
      rowsFor (runImportJob ⟨4, 0, 1⟩ charTok 100 "c" "j"
        [⟨"a1", "one.txt", 10, Except.ok (), none, "hi".data, Except.ok ()⟩]
        emptyStore).1 (docIdFor "c" "a1") ∧
    vecsFor (runImportJob ⟨4, 0, 1⟩ charTok 100 "c" "j2"
        [⟨"a1", "one.txt", 10, Except.ok (), none, "hi".data, Except.ok ()⟩]
        (runImportJob ⟨4, 0, 1⟩ charTok 100 "c" "j"
          [⟨"a1", "one.txt", 10, Except.ok (), none, "hi".data, Except.ok ()⟩]
          emptyStore).1).1 (docIdFor "c" "a1") =
      vecsFor (runImportJob ⟨4, 0, 1⟩ charTok 100 "c" "j"
        [⟨"a1", "one.txt", 10, Except.ok (), none, "hi".data, Except.ok ()⟩]
        emptyStore).1 (docIdFor "c" "a1") ∧
    ((rowsFor (runImportJob ⟨4, 0, 1⟩ charTok 100 "c" "j2"
        [⟨"a1", "one.txt", 10, Except.ok (), none, "hi".data, Except.ok ()⟩]
        (runImportJob ⟨4, 0, 1⟩ charTok 100 "c" "j"
          [⟨"a1", "one.txt", 10, Except.ok (), none, "hi".data, Except.ok ()⟩]
          emptyStore).1).1 (docIdFor "c" "a1")).map ChunkRow.chunkIndex).Nodup :=
  reimport_idempotent ⟨4, 0, 1⟩ charTok 100 "c" "j" "j2"
    [⟨"a1", "one.txt", 10, Except.ok (), none, "hi".data, Except.ok ()⟩] _ _
    (by decide) rfl rfl
    ⟨"a1", "one.txt", 10, Except.ok (), none, "hi".data, Except.ok ()⟩
    (List.mem_singleton.mpr rfl)

/-! ### C2: partial-failure isolation and the error log -/

/-- A file for which every per-file step succeeds and chunking produces at
least one chunk. -/
def fileSucceeds (cfg : ChunkerConfig) (tok : Tokenizer) (maxSize : Nat)
    (f : FileSpec) : Prop :=
  f.sizeBytes ≤ maxSize ∧ f.download = Except.ok () ∧ f.extractError = none ∧
  (pyStrip f.extractText).isEmpty = false ∧
  chunkText cfg tok f.extractText ≠ none ∧
  chunkText cfg tok f.extractText ≠ some [] ∧
  f.embed = Except.ok ()

/-- A file whose extraction fails in the classified way of the pipeline: the
extractor returns an error or empty text (DocumentExtractor.extract catches
exceptions and returns them in the result, so this path never raises). -/
def fileFailsExtraction (maxSize : Nat) (f : FileSpec) : Prop :=
  f.sizeBytes ≤ maxSize ∧ f.download = Except.ok () ∧
  (f.extractError.isSome || (pyStrip f.extractText).isEmpty) = true

lemma processFile_js_succeeds (cfg : ChunkerConfig) (tok : Tokenizer)
    (maxSize : Nat) (conn jobId : String) (st : Store) (js : JobState)
    (f : FileSpec) (h : fileSucceeds cfg tok maxSize f) :
    (processFile cfg tok maxSize conn jobId (st, js) f).2.filesProcessed =
      js.filesProcessed + 1 ∧
    (processFile cfg tok maxSize conn jobId (st, js) f).2.filesFailed =
      js.filesFailed ∧
    (processFile cfg tok maxSize conn jobId (st, js) f).2.errorLog =
      js.errorLog := by
  obtain ⟨h1, h2, h3, h4, h5, h6, h7⟩ := h
  have hex : (f.extractError.isSome || (pyStrip f.extractText).isEmpty) = false := by
    simp [h3, h4]
  simp only [processFile, if_neg (Nat.not_lt.mpr h1), h2]
  cases hck : chunkText cfg tok f.extractText with
  | none => exact absurd hck h5
  | some chunks =>
    cases chunks with
    | nil => exact absurd hck h6
    | cons c cs =>
      simp [hex, h7]

lemma processFile_js_extractFails (cfg : ChunkerConfig) (tok : Tokenizer)
    (maxSize : Nat) (conn jobId : String) (st : Store) (js : JobState)
    (f : FileSpec) (h : fileFailsExtraction maxSize f) :
    (processFile cfg tok maxSize conn jobId (st, js) f).2.filesProcessed =
      js.filesProcessed ∧
    (processFile cfg tok maxSize conn jobId (st, js) f).2.filesFailed =
      js.filesFailed + 1 ∧
    (processFile cfg tok maxSize conn jobId (st, js) f).2.errorLog =
      js.errorLog := by
  obtain ⟨h1, h2, h3⟩ := h
  simp [processFile, if_neg (Nat.not_lt.mpr h1), h2, h3]

lemma runFold_counts (cfg : ChunkerConfig) (tok : Tokenizer) (maxSize : Nat)
    (conn jobId : String) :
    ∀ (files : List FileSpec) (st : Store) (js : JobState),
      (∀ f ∈ files, fileSucceeds cfg tok maxSize f ∨ fileFailsExtraction maxSize f) →
      (files.foldl (processFile cfg tok maxSize conn jobId) (st, js)).2.filesProcessed +
        (files.foldl (processFile cfg tok maxSize conn jobId) (st, js)).2.filesFailed =
        js.filesProcessed + js.filesFailed + files.length ∧
      (files.foldl (processFile cfg tok maxSize conn jobId) (st, js)).2.errorLog =
        js.errorLog := by
  intro files
  induction files with
  | nil => intro st js _; simp
  | cons f0 rest ih =>
    intro st js hall
    rw [List.foldl_cons]
    have ih' := ih (processFile cfg tok maxSize conn jobId (st, js) f0).1
      (processFile cfg tok maxSize conn jobId (st, js) f0).2
      (fun g hg => hall g (List.mem_cons_of_mem _ hg))
    rcases hall f0 (List.mem_cons_self _ _) with hsucc | hfail
    · obtain ⟨p1, p2, p3⟩ :=
        processFile_js_succeeds cfg tok maxSize conn jobId st js f0 hsucc
      constructor
      · rw [ih'.1, p1, p2, List.length_cons]
        omega
      · rw [ih'.2, p3]
    · obtain ⟨p1, p2, p3⟩ :=
        processFile_js_extractFails cfg tok maxSize conn jobId st js f0 hfail
      constructor
      · rw [ih'.1, p1, p2, List.length_cons]
        omega
      · rw [ih'.2, p3]

/-- C2 (amended): when every file in the folder either fully succeeds or
fails extraction in the classified way, the job completes with
filesProcessed + filesFailed equal to totalFilesFound — but the errorLog
stays empty: classified extraction failures are recorded on the Document
record, not in the job's errorLog (the original claim expected exactly one
errorLog entry for the failing file). -/
theorem import_counts_ignore_errorlog (cfg : ChunkerConfig) (tok : Tokenizer)
    (maxSize : Nat) (conn jobId : String) (files : List FileSpec) (st : Store)
    (hall : ∀ f ∈ files,
      fileSucceeds cfg tok maxSize f ∨ fileFailsExtraction maxSize f) :
    (runImportJob cfg tok maxSize conn jobId files st).2.status = "completed" ∧
    (runImportJob cfg tok maxSize conn jobId files st).2.filesProcessed +
      (runImportJob cfg tok maxSize conn jobId files st).2.filesFailed =
      (runImportJob cfg tok maxSize conn jobId files st).2.totalFilesFound ∧
    (runImportJob cfg tok maxSize conn jobId files st).2.errorLog = [] := by
  obtain ⟨hc, he⟩ := runFold_counts cfg tok maxSize conn jobId files st
    initJobState hall
  refine ⟨rfl, ?_, ?_⟩
  · show (files.foldl (processFile cfg tok maxSize conn jobId)
        (st, initJobState)).2.filesProcessed +
      (files.foldl (processFile cfg tok maxSize conn jobId)
        (st, initJobState)).2.filesFailed = files.length
    rw [hc]
    simp [initJobState]
  · show (files.foldl (processFile cfg tok maxSize conn jobId)
        (st, initJobState)).2.errorLog = []
    rw [he]
    rfl


/-- Counterexample to C2 as stated: a two-file folder in which exactly the
second file fails extraction and the first succeeds ends completed with
filesProcessed + filesFailed = totalFilesFound = 2, but the errorLog is
empty — it contains no entry referencing the failing file, not exactly
one. -/
theorem extraction_failure_errorlog_counterexample :
    (runImportJob ⟨4, 0, 1⟩ charTok 100 "c" "j"
      [⟨"a1", "one.txt", 10, Except.ok (), none, "hi".data, Except.ok ()⟩,
       ⟨"a2", "two.txt", 10, Except.ok (), some "extraction failed", [],
        Except.ok ()⟩] emptyStore).2 =
    { status := "completed", totalFilesFound := 2, filesProcessed := 1,
      filesFailed := 1, totalChunksCreated := 1, errorLog := [] } := rfl

/-- Witness for the amended C2 at the same concrete folder. -/
theorem import_counts_ignore_errorlog_witness :
    (runImportJob ⟨4, 0, 1⟩ charTok 100 "c" "j"
      [⟨"a1", "one.txt", 10, Except.ok (), none, "hi".data, Except.ok ()⟩,
       ⟨"a2", "two.txt", 10, Except.ok (), some "extraction failed", [],
        Except.ok ()⟩] emptyStore).2.status = "completed" ∧
    (runImportJob ⟨4, 0, 1⟩ charTok 100 "c" "j"
      [⟨"a1", "one.txt", 10, Except.ok (), none, "hi".data, Except.ok ()⟩,
       ⟨"a2", "two.txt", 10, Except.ok (), some "extraction failed", [],
        Except.ok ()⟩] emptyStore).2.filesProcessed +
      (runImportJob ⟨4, 0, 1⟩ charTok 100 "c" "j"
        [⟨"a1", "one.txt", 10, Except.ok (), none, "hi".data, Except.ok ()⟩,
         ⟨"a2", "two.txt", 10, Except.ok (), some "extraction failed", [],
          Except.ok ()⟩] emptyStore).2.filesFailed =
      (runImportJob ⟨4, 0, 1⟩ charTok 100 "c" "j"
        [⟨"a1", "one.txt", 10, Except.ok (), none, "hi".data, Except.ok ()⟩,
         ⟨"a2", "two.txt", 10, Except.ok (), some "extraction failed", [],
          Except.ok ()⟩] emptyStore).2.totalFilesFound ∧
    (runImportJob ⟨4, 0, 1⟩ charTok 100 "c" "j"
      [⟨"a1", "one.txt", 10, Except.ok (), none, "hi".data, Except.ok ()⟩,
       ⟨"a2", "two.txt", 10, Except.ok (), some "extraction failed", [],
        Except.ok ()⟩] emptyStore).2.errorLog = [] :=
  import_counts_ignore_errorlog ⟨4, 0, 1⟩ charTok 100 "c" "j"
    [⟨"a1", "one.txt", 10, Except.ok (), none, "hi".data, Except.ok ()⟩,
     ⟨"a2", "two.txt", 10, Except.ok (), some "extraction failed", [],
      Except.ok ()⟩] emptyStore
    (by
      intro f hf
      rcases List.mem_cons.mp hf with rfl | hf2
      · left
        refine ⟨by decide, rfl, rfl, by decide, by decide, by decide, rfl⟩
      · rcases List.mem_cons.mp hf2 with rfl | hf3
        · right
          exact ⟨by decide, rfl, by decide⟩
        · simp at hf3)

/-! ### C10: zero-chunk files are skipped before the replace step -/

/-- C10: a file whose extraction succeeds with nonempty text but whose
chunker output is empty is skipped before the delete-then-insert step: all
previously stored chunk rows and vectors (of every document) are untouched,
no processed or failed counter moves, the error log is unchanged, and the
file's Document row is left in status processing (upserted on the natural
key, then marked processing, and never marked indexed or failed). -/
theorem zero_chunk_skip_frame (cfg : ChunkerConfig) (tok : Tokenizer)
    (maxSize : Nat) (conn jobId : String) (st : Store) (js : JobState)
    (f : FileSpec) (hwf : StoreWf conn st)
    (h1 : f.sizeBytes ≤ maxSize) (h2 : f.download = Except.ok ())
    (h3 : f.extractError = none) (h4 : (pyStrip f.extractText).isEmpty = false)
    (h5 : chunkText cfg tok f.extractText = some []) :
    (processFile cfg tok maxSize conn jobId (st, js) f).1.chunks = st.chunks ∧
    (processFile cfg tok maxSize conn jobId (st, js) f).1.vectors = st.vectors ∧
    (processFile cfg tok maxSize conn jobId (st, js) f).2.filesProcessed =
      js.filesProcessed ∧
    (processFile cfg tok maxSize conn jobId (st, js) f).2.filesFailed =
      js.filesFailed ∧
    (processFile cfg tok maxSize conn jobId (st, js) f).2.errorLog =
      js.errorLog ∧
    findDoc (processFile cfg tok maxSize conn jobId (st, js) f).1 conn f.id =
      some (pipelineDoc conn f.id f.name jobId "processing"
        (priorCount (findDoc st conn f.id)) none) := by
  have hex : (f.extractError.isSome || (pyStrip f.extractText).isEmpty) = false := by
    simp [h3, h4]
  have hproc : processFile cfg tok maxSize conn jobId (st, js) f =
      (updateDocumentStatus (upsertDocument st conn f.id f.name jobId).1
        (docIdFor conn f.id) "processing" none none,
       { js with currentFile := some f.name }) := by
    simp only [processFile, if_neg (Nat.not_lt.mpr h1), h2, hex, h5]
    rw [upsertDocument_snd]
    simp
  rw [hproc]
  refine ⟨?_, ?_, rfl, rfl, rfl, ?_⟩
  · show (upsertDocument st conn f.id f.name jobId).1.chunks = st.chunks
    unfold upsertDocument
    split <;> rfl
  · show (upsertDocument st conn f.id f.name jobId).1.vectors = st.vectors
    unfold upsertDocument
    split <;> rfl
  · exact findDoc_upsert_processing st conn f.id f.name jobId hwf

/-- Witness for C10: a file whose extracted text is only a page marker
yields zero chunks and is skipped with the store untouched. -/
theorem zero_chunk_skip_frame_witness :
    (processFile ⟨4, 0, 1⟩ charTok 100 "c" "j" (emptyStore, initJobState)
      ⟨"a3", "three.txt", 10, Except.ok (), none, "[Page 3]".data,
        Except.ok ()⟩).1.chunks = emptyStore.chunks ∧
    (processFile ⟨4, 0, 1⟩ charTok 100 "c" "j" (emptyStore, initJobState)
      ⟨"a3", "three.txt", 10, Except.ok (), none, "[Page 3]".data,
        Except.ok ()⟩).1.vectors = emptyStore.vectors ∧
    (processFile ⟨4, 0, 1⟩ charTok 100 "c" "j" (emptyStore, initJobState)
      ⟨"a3", "three.txt", 10, Except.ok (), none, "[Page 3]".data,
        Except.ok ()⟩).2.filesProcessed = initJobState.filesProcessed ∧
    (processFile ⟨4, 0, 1⟩ charTok 100 "c" "j" (emptyStore, initJobState)
      ⟨"a3", "three.txt", 10, Except.ok (), none, "[Page 3]".data,
        Except.ok ()⟩).2.filesFailed = initJobState.filesFailed ∧
    (processFile ⟨4, 0, 1⟩ charTok 100 "c" "j" (emptyStore, initJobState)
      ⟨"a3", "three.txt", 10, Except.ok (), none, "[Page 3]".data,
        Except.ok ()⟩).2.errorLog = initJobState.errorLog ∧
    findDoc (processFile ⟨4, 0, 1⟩ charTok 100 "c" "j" (emptyStore, initJobState)
      ⟨"a3", "three.txt", 10, Except.ok (), none, "[Page 3]".data,
        Except.ok ()⟩).1 "c" "a3" =
      some (pipelineDoc "c" "a3" "three.txt" "j" "processing"
        (priorCount (findDoc emptyStore "c" "a3")) none) :=
  zero_chunk_skip_frame ⟨4, 0, 1⟩ charTok 100 "c" "j" emptyStore initJobState
    ⟨"a3", "three.txt", 10, Except.ok (), none, "[Page 3]".data, Except.ok ()⟩
    (storeWf_empty "c") (by decide) rfl rfl (by decide) (by decide)

/-! ### C8: pagination and the retry wrapper of list_folder_contents

SharePointClient.list_folder_contents walks the continuation-token chain of
one folder inside a while loop, accumulating files and folders, and the
tenacity decorator @retry(stop=stop_after_attempt(5), ...) wraps the WHOLE
function: an HTTPStatusError raised while fetching any page is re-raised by
the inner try block and restarts the entire call with fresh accumulators.
The folder's listing is modelled as the list of its pages (the continuation
token is the next page index); a failure schedule says which page fetch
fails transiently on which attempt; the trace records every page fetch as
an (attempt, page) pair. -/

/-- The while loop of list_folder_contents during one call (one attempt):
fetch the remaining pages in order, accumulating items, stopping with an
error on the first failed fetch (the decorator will retry the whole
call). -/
def fetchPagesAux (a : Nat) (fails : Nat → Nat → Bool) :
    List (Nat × List String) → List String → List (Nat × Nat) →
    List (Nat × Nat) × Except Unit (List String)
  | [], acc, tr => (tr, Except.ok acc)
  | (i, pg) :: rest, acc, tr =>
    if fails a i then (tr ++ [(a, i)], Except.error ())
    else fetchPagesAux a fails rest (acc ++ pg) (tr ++ [(a, i)])

/-- One full call of the undecorated list_folder_contents body on attempt a:
pagination always starts again from the first page with empty
accumulators. -/
def listBody (pages : List (List String)) (fails : Nat → Nat → Bool)
    (a : Nat) : List (Nat × Nat) × Except Unit (List String) :=
  fetchPagesAux a fails pages.enum [] []

/-- The tenacity retry driver: run the body up to the remaining number of
attempts, returning the first success; each retry re-invokes the whole
body. -/
def retryGo (body : Nat → List (Nat × Nat) × Except Unit (List String)) :
    Nat → Nat → List (Nat × Nat) →
    List (Nat × Nat) × Except Unit (List String)
  | _, 0, tr => (tr, Except.error ())
  | a, rem + 1, tr =>
    match body a with
    | (t, Except.ok v) => (tr ++ t, Except.ok v)
    | (t, Except.error _) => retryGo body (a + 1) rem (tr ++ t)

/-- SharePointClient.list_folder_contents with its @retry decorator
(stop_after_attempt(5)). -/
def listFolderContents (pages : List (List String))
    (fails : Nat → Nat → Bool) :
    List (Nat × Nat) × Except Unit (List String) :=
  retryGo (listBody pages fails) 1 5 []

/-- C8 is a code bug: on a two-page folder whose second page fails
transiently on the first attempt only, the retry refetches the FIRST page
as well (the fetch trace is pages 0,1 on attempt 1 and again pages 0,1 on
attempt 2): the continuation token and the items accumulated from earlier
pages are reset, because the tenacity decorator retries the whole
list_folder_contents call — contradicting the inline comment that the
individual page fetch is retried.  The final listing is still the complete
one. -/
theorem pagination_reset_on_retry :
    listFolderContents [["f1"], ["f2"]] (fun a i => a == 1 && i == 1) =
      ([(1, 0), (1, 1), (2, 0), (2, 1)], Except.ok ["f1", "f2"]) ∧
    (2, 0) ∈ (listFolderContents [["f1"], ["f2"]]
      (fun a i => a == 1 && i == 1)).1 := by
  constructor
  · rfl
  · decide

end RagImporter
